import Mathlib

/-!
# The PHP thread pool of `phpmainthread.go`

A shallow embedding of `src/phpmainthread.go`: the package-level pool
(`phpThreads`, `mainThread`), `initPHPThreads`, `phpMainThread.start`,
`drainPHPThreads`, `getInactivePHPThread` and the two exported callbacks
`go_frankenphp_main_thread_is_ready` and `go_frankenphp_shutdown_main_thread`.

Go code that blocks (`waitFor`, `handlerMu.Lock`) is run against an explicit
schedule: a list of steps taken by the other parties (the native main thread,
the native worker threads, callers that still hold a worker). A blocked
operation consumes steps from the schedule until it may go on; when the
schedule is used up first, the run ends `blocked`. A Go panic ends the run
`panicked`. Every outcome keeps the state reached, so that properties of all
executions can be stated.
-/

namespace frankenphp

/-! ## Data model -/

/-- Modelled from the spec: the declaration of the state enumeration is not in
`src/`. The spec lists Uninitialized, Inactive, Active, ShuttingDown and Done
for a worker and Uninitialized, Ready, ShuttingDown and Done for the
supervisor; the source names `stateInactive`, `stateReady`,
`stateShuttingDown` and `stateDone`. -/
inductive stateID
  | stateUninitialized
  | stateInactive
  | stateActive
  | stateReady
  | stateShuttingDown
  | stateDone
  deriving DecidableEq, Repr

open stateID

/-- Modelled from the spec: the type `threadState` is not in `src/`; the spec
describes it as an observable enumerated state. -/
structure threadState where
  currentState : stateID
  deriving DecidableEq, Repr

/-- Modelled from the spec: `newThreadState` is not in `src/`; a fresh state is
Uninitialized. -/
def newThreadState : threadState := ⟨stateUninitialized⟩

/-- Modelled from the spec: `set(state)` is not in `src/`: "unconditional
overwrite". -/
def threadState.set (_ts : threadState) (s : stateID) : threadState := ⟨s⟩

/-- Modelled from the spec: `is(state)` is not in `src/`: "non-blocking
snapshot check". -/
def threadState.is (ts : threadState) (s : stateID) : Bool :=
  decide (ts.currentState = s)

/-- Modelled from the spec: `requestSafeStateChange(target)` is not in `src/`:
"looks up the current state, verifies it is in the permitted predecessor set
for target, performs the transition, and returns a protocol-violation failure
otherwise". The table of permitted predecessors is not given by the spec beyond
two examples, so it is the parameter `permitted current target`. The result is
the state afterwards and whether the transition was performed. -/
def threadState.requestSafeStateChange (permitted : stateID → stateID → Bool)
    (ts : threadState) (target : stateID) : threadState × Bool :=
  if permitted ts.currentState target then (⟨target⟩, true) else (ts, false)

/-- Who holds a worker's `handlerMu`. Go's mutex records no owner; the owner is
kept here only to say which party may release the lock: a caller using the
worker, or `drainPHPThreads`. -/
inductive LockHolder
  | caller
  | supervisor
  deriving DecidableEq, Repr

/-- Modelled from the spec: the struct `phpThread` is not in `src/`. The fields
are the ones `phpmainthread.go` uses: `threadIndex`, `state`, `handlerMu` (with
its holder when locked) and `drainChan` (`true` once the channel is closed). -/
structure phpThread where
  threadIndex : Nat
  state : threadState
  handlerMu : Option LockHolder
  drainChan : Bool
  deriving DecidableEq, Repr

/-- Modelled from the spec: `newPHPThread(i)` is not in `src/`: a new worker
record with index `i`, a fresh state, a free lock and an open drain signal. -/
def newPHPThread (i : Nat) : phpThread :=
  { threadIndex := i, state := newThreadState, handlerMu := none, drainChan := false }

/-- Modelled from the spec: `convertToInactiveThread` is not in `src/`: the
spec has every worker "created exactly once, in Inactive state, before the pool
is started", and the source comments "initialize all threads as inactive". -/
def convertToInactiveThread (t : phpThread) : phpThread :=
  { t with state := t.state.set stateInactive }

/-- A Go `map[string]*C.zend_string`: a lookup gives the stored handle or
nothing. The nil map has no key. -/
abbrev ZendMap := String → Option Nat

/-- The empty map, as made by `make(map[string]*C.zend_string, n)`. -/
def ZendMap.empty : ZendMap := fun _ => none

/-- The Go assignment `m[k] = v`. -/
def ZendMap.insert (m : ZendMap) (k : String) (v : Nat) : ZendMap :=
  fun q => if q = k then some v else m q

/-- The struct `phpMainThread` of the source; `done` is `true` once the channel
is closed. -/
structure phpMainThread where
  state : threadState
  done : Bool
  numThreads : Int
  commonHeaders : ZendMap
  knownServerKeys : ZendMap

/-- The Go errors `initPHPThreads` can return. -/
inductive GoError
  | MainThreadCreationError
  deriving DecidableEq, Repr

/-- The foreign functions `phpmainthread.go` calls through cgo, with their
arguments and the value each returned. -/
inductive CFn
  | new_main_thread (numThreads : Int) (ret : Int)
  | init_persistent_string (s : String) (len : Nat) (ret : Nat)
  | new_php_thread (threadIndex : Nat) (ret : Bool)
  deriving DecidableEq, Repr

/-- One entry of the log of foreign calls: the call, and what the Go side looked
like when it was made (the pool and the state of the main thread). The log is
bookkeeping of the embedding, used to state ordering properties. -/
structure CCall where
  fn : CFn
  pool : List phpThread
  mainState : Option stateID
  deriving DecidableEq, Repr

/-- Where the native main thread stands. Modelled from the spec: the C code of
the main thread is not in `src/`. Once started it boots, calls
`go_frankenphp_main_thread_is_ready` and stays inside that callback until the
supervisor is ShuttingDown, tears the engine down and calls
`go_frankenphp_shutdown_main_thread`. -/
inductive NativeMain
  | notStarted
  | booting
  | inReadyCallback
  | tearingDown
  | exited
  deriving DecidableEq, Repr

/-- The package-level variables `phpThreads` and `mainThread` (nil slice is the
empty list, nil pointer is `none`), the native threads that exist, and the log
of foreign calls. -/
structure World where
  phpThreads : List phpThread
  mainThread : Option phpMainThread
  nativeMain : NativeMain
  nativeWorkers : List Nat
  calls : List CCall

/-- A process that has not called `initPHPThreads` yet. -/
def World.fresh : World :=
  { phpThreads := [], mainThread := none, nativeMain := NativeMain.notStarted,
    nativeWorkers := [], calls := [] }

/-- The foreign engine: what each cgo function returns, which may depend on
every foreign call made before. -/
structure Engine where
  frankenphp_new_main_thread : List CCall → Int → Int
  frankenphp_init_persistent_string : List CCall → String → Nat → Nat
  frankenphp_new_php_thread : List CCall → Nat → Bool

/-- Constants and tables the source uses and `src/` does not hold:
`phpheaders.CommonRequestHeaders` (a Go map, given as the list of its entries in
the order `range` visits them), `knownServerKeys` (a slice) and the table of
permitted transitions of `requestSafeStateChange`. -/
structure Params where
  permitted : stateID → stateID → Bool
  CommonRequestHeaders : List (String × String)
  knownServerKeys : List String

/-! ## `getInactivePHPThread` -/

/-- The function `getInactivePHPThread` of the source: the first worker of
`phpThreads` whose state is Inactive; the Go panic is the error. The function
writes nothing. -/
def getInactivePHPThread (w : World) : Except String phpThread :=
  match w.phpThreads.find? (fun thread => thread.state.is stateInactive) with
  | some thread => Except.ok thread
  | none => Except.error "not enough threads reserved"

/-! ## The other parties and blocking -/

/-- One step of another party, as the schedule lists them: the native main
thread, the native thread of worker `i`, or the caller that holds worker `i`
finishing its use. -/
inductive Event
  | mainThread
  | worker (i : Nat)
  | release (i : Nat)
  deriving DecidableEq, Repr

/-- How a run of Go code ends: it returns a value, it panics, or it stays
blocked because the schedule holds no further step. -/
inductive Res (α : Type)
  | ret (a : α) (w : World) (sched : List Event)
  | panicked (msg : String) (w : World)
  | blocked (w : World)

/-- The state a run ended in. -/
def Res.world {α : Type} : Res α → World
  | Res.ret _ w _ => w
  | Res.panicked _ w => w
  | Res.blocked w => w

/-- The current state of the main thread, when there is one. -/
def World.mainState (w : World) : Option stateID :=
  w.mainThread.map (fun m => m.state.currentState)

/-- An update of the struct `mainThread` points to. -/
def World.modifyMain (w : World) (f : phpMainThread → phpMainThread) : World :=
  { w with mainThread := w.mainThread.map f }

/-- An update of the worker `phpThreads[i]` points to. -/
def World.modifyThread (w : World) (i : Nat) (f : phpThread → phpThread) : World :=
  { w with phpThreads := w.phpThreads.modify f i }

/-- Appends a foreign call to the log, with the pool and main state of the
moment. -/
def World.logCall (w : World) (fn : CFn) : World :=
  { w with calls := w.calls ++ [{ fn := fn, pool := w.phpThreads, mainState := w.mainState }] }

/-- The exported callback `go_frankenphp_main_thread_is_ready` of the source:
`mainThread.state.set(stateReady)`, then `waitFor(stateShuttingDown)`; the
native main thread stays inside the callback while it waits. -/
def go_frankenphp_main_thread_is_ready (w : World) : World :=
  { (w.modifyMain (fun m => { m with state := m.state.set stateReady })) with
    nativeMain := NativeMain.inReadyCallback }

/-- The exported callback `go_frankenphp_shutdown_main_thread` of the source:
`mainThread.state.set(stateDone)`. -/
def go_frankenphp_shutdown_main_thread (w : World) : World :=
  w.modifyMain (fun m => { m with state := m.state.set stateDone })

/-- One step of the native main thread. Modelled from the spec: its C code is
not in `src/`; the two callbacks it calls are. When booting it signals
readiness; inside the ready callback it goes on only once the supervisor is
ShuttingDown; then it shuts down and exits. -/
def nativeMainStep (w : World) : World :=
  match w.nativeMain with
  | NativeMain.booting => go_frankenphp_main_thread_is_ready w
  | NativeMain.inReadyCallback =>
    if w.mainState = some stateShuttingDown then
      { w with nativeMain := NativeMain.tearingDown }
    else w
  | NativeMain.tearingDown =>
    { (go_frankenphp_shutdown_main_thread w) with nativeMain := NativeMain.exited }
  | NativeMain.notStarted => w
  | NativeMain.exited => w

/-- One step of the native thread of worker `i`. Modelled from the spec: the
worker loop is not in `src/`; closing the drain signal "wakes the worker's own
execution loop to finish and self-transition to Done". -/
def nativeWorkerStep (i : Nat) (w : World) : World :=
  if i ∈ w.nativeWorkers then
    w.modifyThread i (fun t =>
      if t.drainChan then { t with state := t.state.set stateDone } else t)
  else w

/-- The caller that holds worker `i` finishes. Modelled from the spec: callers
"use its native context exclusively while holding its lock, then release it
back to Inactive". -/
def releaseStep (i : Nat) (w : World) : World :=
  w.modifyThread i (fun t =>
    if t.handlerMu = some LockHolder.caller then
      { t with state := t.state.set stateInactive, handlerMu := none }
    else t)

/-- The effect of one scheduled step. -/
def envStep (e : Event) (w : World) : World :=
  match e with
  | Event.mainThread => nativeMainStep w
  | Event.worker i => nativeWorkerStep i w
  | Event.release i => releaseStep i w

/-- The effect of a list of scheduled steps, in order. -/
def envSteps (es : List Event) (w : World) : World :=
  es.foldl (fun v e => envStep e v) w

/-- Blocks until `cond` holds: returns at once when it already does, otherwise
lets the next scheduled step happen and looks again. -/
def await (cond : World → Bool) : World → List Event → Res Unit
  | w, [] => if cond w then Res.ret () w [] else Res.blocked w
  | w, e :: es => if cond w then Res.ret () w (e :: es) else await cond (envStep e w) es

/-- The state of worker `i` is `s`. -/
def World.threadIs (w : World) (i : Nat) (s : stateID) : Bool :=
  match w.phpThreads[i]? with
  | some t => t.state.is s
  | none => false

/-- The lock `handlerMu` of worker `i` is free. -/
def World.lockFree (w : World) (i : Nat) : Bool :=
  match w.phpThreads[i]? with
  | some t => t.handlerMu.isNone
  | none => false

/-- The drain signal of worker `i` is closed. -/
def World.drainClosed (w : World) (i : Nat) : Bool :=
  match w.phpThreads[i]? with
  | some t => t.drainChan
  | none => false

/-- Modelled from the spec: `waitFor(state)` is not in `src/`: "blocks the
calling logical task until the value equals state; returns immediately if
already true". Here on `mainThread.state`; a nil `mainThread` panics. -/
def waitForMain (target : stateID) (w : World) (sched : List Event) : Res Unit :=
  match w.mainThread with
  | none => Res.panicked "invalid memory address or nil pointer dereference" w
  | some _ => await (fun v => decide (v.mainState = some target)) w sched

/-- Modelled from the spec: `waitFor(state)` on the state of worker `i`. -/
def waitForThread (i : Nat) (target : stateID) (w : World) (sched : List Event) : Res Unit :=
  await (fun v => v.threadIs i target) w sched

/-- Runs `body` for each listed index in turn, as a `for ... range` loop
does; a panic or a block ends the loop. -/
def forEach (body : Nat → World → List Event → Res Unit) :
    List Nat → World → List Event → Res Unit
  | [], w, sched => Res.ret () w sched
  | i :: rest, w, sched =>
    match body i w sched with
    | Res.ret _ w1 s1 => forEach body rest w1 s1
    | Res.panicked msg w1 => Res.panicked msg w1
    | Res.blocked w1 => Res.blocked w1

/-! ## `phpMainThread.start` and `initPHPThreads` -/

/-- The Go conversion `C.int(n)` of an `int` to a 32-bit C `int`. -/
def cInt (n : Int) : Int := (n + 2147483648) % 4294967296 - 2147483648

/-- One iteration of the first cache loop of `start`:
`mainThread.commonHeaders[key] = C.frankenphp_init_persistent_string(C.CString(phpKey), C.size_t(len(phpKey)))`. -/
def cacheCommonHeader (eng : Engine) (w : World) (entry : String × String) : World :=
  let h := eng.frankenphp_init_persistent_string w.calls entry.2 entry.2.utf8ByteSize
  (w.logCall (CFn.init_persistent_string entry.2 entry.2.utf8ByteSize h)).modifyMain
    (fun m => { m with commonHeaders := m.commonHeaders.insert entry.1 h })

/-- One iteration of the second cache loop of `start`:
`mainThread.knownServerKeys[phpKey] = C.frankenphp_init_persistent_string(toUnsafeChar(phpKey), C.size_t(len(phpKey)))`. -/
def cacheServerKey (eng : Engine) (w : World) (phpKey : String) : World :=
  let h := eng.frankenphp_init_persistent_string w.calls phpKey phpKey.utf8ByteSize
  (w.logCall (CFn.init_persistent_string phpKey phpKey.utf8ByteSize h)).modifyMain
    (fun m => { m with knownServerKeys := m.knownServerKeys.insert phpKey h })

/-- The part of `start` after `waitFor(stateReady)`: both caches are made empty
and filled. -/
def buildCaches (eng : Engine) (P : Params) (w : World) : World :=
  let w1 := w.modifyMain (fun m => { m with commonHeaders := ZendMap.empty })
  let w2 := P.CommonRequestHeaders.foldl (cacheCommonHeader eng) w1
  let w3 := w2.modifyMain (fun m => { m with knownServerKeys := ZendMap.empty })
  P.knownServerKeys.foldl (cacheServerKey eng) w3

/-- The method `(mainThread *phpMainThread) start()` of the source, called on
the package-level `mainThread`. A result other than 0 of
`frankenphp_new_main_thread` is the error; with 0 the native main thread
exists and boots. -/
def phpMainThread.start (eng : Engine) (P : Params) (w : World) (sched : List Event) :
    Res (Option GoError) :=
  match w.mainThread with
  | none => Res.panicked "invalid memory address or nil pointer dereference" w
  | some m =>
    let r := eng.frankenphp_new_main_thread w.calls (cInt m.numThreads)
    let w1 := w.logCall (CFn.new_main_thread (cInt m.numThreads) r)
    if r ≠ 0 then Res.ret (some GoError.MainThreadCreationError) w1 sched
    else
      match waitForMain stateReady { w1 with nativeMain := NativeMain.booting } sched with
      | Res.ret _ w2 s2 => Res.ret none (buildCaches eng P w2) s2
      | Res.panicked msg w2 => Res.panicked msg w2
      | Res.blocked w2 => Res.blocked w2

/-- The first statement of a goroutine of `initPHPThreads`:
`C.frankenphp_new_php_thread(C.uintptr_t(thread.threadIndex))`, with
`logger.Panic` when it returns false; on success the native thread exists. -/
def startNativeThread (eng : Engine) (i : Nat) (w : World) (sched : List Event) : Res Unit :=
  match w.phpThreads[i]? with
  | none => Res.panicked "invalid memory address or nil pointer dereference" w
  | some thread =>
    let r := eng.frankenphp_new_php_thread w.calls thread.threadIndex
    let w1 := w.logCall (CFn.new_php_thread thread.threadIndex r)
    if r then Res.ret () { w1 with nativeWorkers := thread.threadIndex :: w1.nativeWorkers } sched
    else Res.panicked "unable to create thread" w1

/-- The workers `initPHPThreads` puts into `phpThreads`: for each `i` below
`numThreads`, `newPHPThread(i)` converted to an inactive thread. -/
def allocThreads (numThreads : Nat) : List phpThread :=
  (List.range numThreads).map (fun i => convertToInactiveThread (newPHPThread i))

/-- The struct `initPHPThreads` allocates for `mainThread`: a fresh state, a
`done` channel that is open, `numThreads`, and both maps nil. -/
def newMainThread (numThreads : Int) : phpMainThread :=
  { state := newThreadState, done := false, numThreads := numThreads,
    commonHeaders := fun _ => none, knownServerKeys := fun _ => none }

/-- The function `initPHPThreads` of the source. A negative `numThreads` makes
`make` panic. The goroutines that start the native threads are joined by the
wait group `ready`; they are run here one after the other, first the call of
each, then the wait of each. -/
def initPHPThreads (eng : Engine) (P : Params) (numThreads : Int) (w : World)
    (sched : List Event) : Res (Option GoError) :=
  let w0 := { w with mainThread := some (newMainThread numThreads) }
  if numThreads < 0 then Res.panicked "makeslice: len out of range" w0
  else
    let w1 := { w0 with phpThreads := allocThreads numThreads.toNat }
    match phpMainThread.start eng P w1 sched with
    | Res.ret (some err) w2 s2 => Res.ret (some err) w2 s2
    | Res.ret none w2 s2 =>
      match forEach (startNativeThread eng) (List.range w2.phpThreads.length) w2 s2 with
      | Res.ret _ w3 s3 =>
        match forEach (fun i => waitForThread i stateInactive)
            (List.range w3.phpThreads.length) w3 s3 with
        | Res.ret _ w4 s4 => Res.ret none w4 s4
        | Res.panicked msg w4 => Res.panicked msg w4
        | Res.blocked w4 => Res.blocked w4
      | Res.panicked msg w3 => Res.panicked msg w3
      | Res.blocked w3 => Res.blocked w3
    | Res.panicked msg w2 => Res.panicked msg w2
    | Res.blocked w2 => Res.blocked w2

/-! ## `drainPHPThreads` -/

/-- The statement `thread.handlerMu.Lock()` of `drainPHPThreads` once the lock
is free: the supervisor holds it. -/
def takeLock (i : Nat) (w : World) : World :=
  w.modifyThread i (fun t => { t with handlerMu := some LockHolder.supervisor })

/-- The statement `_ = thread.state.requestSafeStateChange(stateShuttingDown)`
of `drainPHPThreads`: the state is what the request leaves, the result of the
request is dropped. -/
def requestShuttingDown (P : Params) (i : Nat) (w : World) : World :=
  w.modifyThread i (fun t =>
    { t with state := (t.state.requestSafeStateChange P.permitted stateShuttingDown).1 })

/-- The statement `close(thread.drainChan)` of `drainPHPThreads`: Go panics when
the channel is already closed. -/
def closeDrainChan (i : Nat) (w : World) (sched : List Event) : Res Unit :=
  if w.drainClosed i then Res.panicked "close of closed channel" w
  else Res.ret () (w.modifyThread i (fun t => { t with drainChan := true })) sched

/-- The body of the first loop of `drainPHPThreads` for worker `i`:
`thread.handlerMu.Lock()` blocks until the lock is free, then the request for
ShuttingDown, then the close of the drain signal. -/
def shutdownThread (P : Params) (i : Nat) (w : World) (sched : List Event) : Res Unit :=
  match await (fun v => v.lockFree i) w sched with
  | Res.ret _ w1 s1 => closeDrainChan i (requestShuttingDown P i (takeLock i w1)) s1
  | Res.panicked msg w1 => Res.panicked msg w1
  | Res.blocked w1 => Res.blocked w1

/-- The body of a goroutine of the second loop of `drainPHPThreads` for worker
`i`: `thread.state.waitFor(stateDone)`, then `thread.handlerMu.Unlock()`, which
is fatal on a free lock. -/
def awaitThreadDone (i : Nat) (w : World) (sched : List Event) : Res Unit :=
  match waitForThread i stateDone w sched with
  | Res.ret _ w1 s1 =>
    if w1.lockFree i then Res.panicked "sync: unlock of unlocked mutex" w1
    else Res.ret () (w1.modifyThread i (fun t => { t with handlerMu := none })) s1
  | Res.panicked msg w1 => Res.panicked msg w1
  | Res.blocked w1 => Res.blocked w1

/-- The first loop of `drainPHPThreads`, over the workers in `phpThreads` when
the loop starts. -/
def drainLockPhase (P : Params) (w : World) (sched : List Event) : Res Unit :=
  forEach (shutdownThread P) (List.range w.phpThreads.length) w sched

/-- The statement `close(mainThread.done)` of `drainPHPThreads`. -/
def closeMainDone (w : World) (sched : List Event) : Res Unit :=
  match w.mainThread with
  | none => Res.panicked "invalid memory address or nil pointer dereference" w
  | some m =>
    if m.done then Res.panicked "close of closed channel" w
    else Res.ret () (w.modifyMain (fun m => { m with done := true })) sched

/-- The function `drainPHPThreads` of the source up to, and without, its last
statement `phpThreads = nil`. The goroutines of the second loop are joined by
the wait group `doneWG`; they are run here one after the other. -/
def drainBody (P : Params) (w : World) (sched : List Event) : Res Unit :=
  match drainLockPhase P w sched with
  | Res.ret _ w1 s1 =>
    match closeMainDone w1 s1 with
    | Res.ret _ w2 s2 =>
      match forEach awaitThreadDone (List.range w2.phpThreads.length) w2 s2 with
      | Res.ret _ w3 s3 =>
        waitForMain stateDone
          (w3.modifyMain (fun m => { m with state := m.state.set stateShuttingDown })) s3
      | Res.panicked msg w3 => Res.panicked msg w3
      | Res.blocked w3 => Res.blocked w3
    | Res.panicked msg w2 => Res.panicked msg w2
    | Res.blocked w2 => Res.blocked w2
  | Res.panicked msg w1 => Res.panicked msg w1
  | Res.blocked w1 => Res.blocked w1

/-- The function `drainPHPThreads` of the source. -/
def drainPHPThreads (P : Params) (w : World) (sched : List Event) : Res Unit :=
  match drainBody P w sched with
  | Res.ret _ w1 s1 => Res.ret () { w1 with phpThreads := [] } s1
  | Res.panicked msg w1 => Res.panicked msg w1
  | Res.blocked w1 => Res.blocked w1

/-! ## Observations and invariants -/

/-- Whether the run returned. -/
def Res.returned {α : Type} : Res α → Bool
  | Res.ret _ _ _ => true
  | Res.panicked _ _ => false
  | Res.blocked _ => false

/-- The message of the panic the run ended with, if it did. -/
def Res.panicMsg {α : Type} : Res α → Option String
  | Res.ret _ _ _ => none
  | Res.panicked msg _ => some msg
  | Res.blocked _ => none

/-- Whether the run ended blocked. -/
def Res.isBlocked {α : Type} : Res α → Bool
  | Res.ret _ _ _ => false
  | Res.panicked _ _ => false
  | Res.blocked _ => true

/-- A lookup in the cache `mainThread.commonHeaders`, as in the Go expression
`mainThread.commonHeaders[key]`. It only reads the state. -/
def World.commonHeader (w : World) (key : String) : Option Nat :=
  match w.mainThread with
  | some m => m.commonHeaders key
  | none => none

/-- A lookup in the cache `mainThread.knownServerKeys`. -/
def World.knownServerKey (w : World) (key : String) : Option Nat :=
  match w.mainThread with
  | some m => m.knownServerKeys key
  | none => none

/-- What a scheduled step can do to one worker: nothing; its own native thread
moves it to Done once its drain signal is closed; or the caller holding it
releases it back to Inactive. -/
def stepRel (t t' : phpThread) : Prop :=
  t' = t ∨
  (t.drainChan = true ∧ t' = { t with state := t.state.set stateDone }) ∨
  (t.handlerMu = some LockHolder.caller ∧
    t' = { t with state := t.state.set stateInactive, handlerMu := none })

/-- Whatever is at position `i` of the pool satisfies `Q`. -/
def World.threadAll (w : World) (i : Nat) (Q : phpThread → Prop) : Prop :=
  ∀ t, w.phpThreads[i]? = some t → Q t

/-- A worker that no caller holds and whose state is not Inactive. -/
def phpThread.outOfReach (t : phpThread) : Prop :=
  t.handlerMu ≠ some LockHolder.caller ∧ t.state.currentState ≠ stateInactive

/-- A worker that has been joined by `drainPHPThreads`: its lock is free and
its state is Done. -/
def phpThread.joined (t : phpThread) : Prop :=
  t.handlerMu = none ∧ t.state.currentState = stateDone

/-- What may happen after a worker was handed to shutdown: a scheduled step of
another party, or any later statement of `drainPHPThreads`, on any worker and
against any schedule: the body of the first loop (`lock`), `close(mainThread.done)`,
the body of a goroutine of the second loop (`join`),
`mainThread.state.set(stateShuttingDown)`, `mainThread.state.waitFor(stateDone)`
and `phpThreads = nil`. -/
inductive DrainStep
  | env (e : Event)
  | lock (j : Nat) (sched : List Event)
  | closeDone
  | join (j : Nat) (sched : List Event)
  | setShuttingDown
  | waitMain (sched : List Event)
  | dropPool

/-- The state after one such step, however the step ended. -/
def DrainStep.run (P : Params) (d : DrainStep) (w : World) : World :=
  match d with
  | DrainStep.env e => envStep e w
  | DrainStep.lock j sched => (shutdownThread P j w sched).world
  | DrainStep.closeDone => (closeMainDone w []).world
  | DrainStep.join j sched => (awaitThreadDone j w sched).world
  | DrainStep.setShuttingDown =>
    w.modifyMain (fun m => { m with state := m.state.set stateShuttingDown })
  | DrainStep.waitMain sched => (waitForMain stateDone w sched).world
  | DrainStep.dropPool => { w with phpThreads := [] }

/-- The state after a list of such steps, in order. -/
def DrainStep.runAll (P : Params) (ds : List DrainStep) (w : World) : World :=
  ds.foldl (fun v d => d.run P v) w

/-- A worker as `initPHPThreads` creates it: index `i`, Inactive, lock free,
drain signal open. -/
def inactiveThread (i : Nat) : phpThread := convertToInactiveThread (newPHPThread i)

/-- A foreign call that may follow the bootstrap in `initPHPThreads`: it is no
second bootstrap, and when it interns a string the main thread is Ready at
that moment. -/
def CCall.afterBootstrap (c : CCall) : Prop :=
  (∀ n r, c.fn ≠ CFn.new_main_thread n r) ∧
  ∀ s n h, c.fn = CFn.init_persistent_string s n h → c.mainState = some stateReady

/-- The log of `v` is `base`, then the call `boot`, then only calls that may
follow the bootstrap. -/
def World.bootedFrom (base : List CCall) (boot : CCall) (v : World) : Prop :=
  ∃ new, v.calls = base ++ (boot :: new) ∧ ∀ c ∈ new, c.afterBootstrap

/-! ## Concrete instances -/

/-- A process whose pool is `pool` and that has no main thread. -/
def poolWorld (pool : List phpThread) : World := { World.fresh with phpThreads := pool }

/-- A process that has been started with the workers `pool`: the supervisor is
Ready, the native main thread waits inside the ready callback, every worker
has its native thread. -/
def runningWorld (pool : List phpThread) : World :=
  { phpThreads := pool,
    mainThread := some { (newMainThread pool.length) with state := ⟨stateReady⟩ },
    nativeMain := NativeMain.inReadyCallback,
    nativeWorkers := List.range pool.length,
    calls := [] }

/-- A worker whose state is Done, with a free lock and an open drain signal. -/
def doneThread (i : Nat) : phpThread :=
  { threadIndex := i, state := ⟨stateDone⟩, handlerMu := none, drainChan := false }

/-- An Inactive worker whose drain signal has already been closed. -/
def drainedThread (i : Nat) : phpThread :=
  { inactiveThread i with drainChan := true }

/-- A table of permitted transitions in line with the two examples of the spec
(Active to ShuttingDown is allowed, Done to Active is not): a state may be left
unless it is ShuttingDown or Done. Used for concrete instances only. -/
def examplePermitted (current _target : stateID) : Bool :=
  !(decide (current = stateShuttingDown) || decide (current = stateDone))

/-- Concrete constants: the table above, two common request headers and one
known server key. -/
def exampleParams : Params :=
  { permitted := examplePermitted,
    CommonRequestHeaders := [("accept", "HTTP_ACCEPT"), ("user-agent", "HTTP_USER_AGENT")],
    knownServerKeys := ["SERVER_PROTOCOL"] }

/-- A concrete engine whose calls all succeed; each interned string gets the
number of earlier foreign calls as its handle. -/
def exampleEngine : Engine :=
  { frankenphp_new_main_thread := fun _ _ => 0,
    frankenphp_init_persistent_string := fun calls _ _ => calls.length,
    frankenphp_new_php_thread := fun _ _ => true }

/-- A concrete engine whose bootstrap fails. -/
def failingEngine : Engine :=
  { exampleEngine with frankenphp_new_main_thread := fun _ _ => -1 }

/-! ## Theorems -/

/-! ### `getInactivePHPThread` (C3, C2) -/

/-- A search with `find?` either finds nothing, and then no element satisfies
the test, or returns the element at the least position that satisfies it. -/
theorem find_first_spec {α : Type} (p : α → Bool) (l : List α) :
    (l.find? p = none ∧ ∀ x ∈ l, p x = false) ∨
    ∃ i t, l[i]? = some t ∧ p t = true ∧ l.find? p = some t ∧
      ∀ (j : Nat) (u : α), j < i → l[j]? = some u → p u = false := by
  induction l with
  | nil => left; simp
  | cons a l ih =>
    by_cases ha : p a = true
    · right
      refine ⟨0, a, by simp, ha, by simp [List.find?_cons, ha], ?_⟩
      intro j u hj
      omega
    · have ha' : p a = false := by simpa using ha
      rcases ih with ⟨hn, hall⟩ | ⟨i, t, hi, hp, hf, hlow⟩
      · left
        refine ⟨by simp [List.find?_cons, ha', hn], ?_⟩
        intro x hx
        rcases List.mem_cons.mp hx with rfl | hx
        · exact ha'
        · exact hall x hx
      · right
        refine ⟨i + 1, t, by simpa using hi, hp, by simp [List.find?_cons, ha', hf], ?_⟩
        intro j u hj hju
        cases j with
        | zero =>
          simp at hju
          subst hju
          exact ha'
        | succ j =>
          simp at hju
          exact hlow j u (by omega) hju

/-- C3: for every pool `getInactivePHPThread` returns the worker at the lowest
position whose state is Inactive when there is one, and panics with "not enough
threads reserved" exactly when no worker of the pool is Inactive, which includes
the empty pool. -/
theorem getInactivePHPThread_first_inactive (w : World) :
    ((∃ t ∈ w.phpThreads, t.state.currentState = stateInactive) →
      ∃ i t, w.phpThreads[i]? = some t ∧ t.state.currentState = stateInactive ∧
        (∀ (j : Nat) (u : phpThread), j < i → w.phpThreads[j]? = some u → u.state.currentState ≠ stateInactive) ∧
        getInactivePHPThread w = Except.ok t) ∧
    (getInactivePHPThread w = Except.error "not enough threads reserved" ↔
      ∀ t ∈ w.phpThreads, t.state.currentState ≠ stateInactive) ∧
    (w.phpThreads = [] →
      getInactivePHPThread w = Except.error "not enough threads reserved") := by
  have key := find_first_spec (fun thread : phpThread => thread.state.is stateInactive) w.phpThreads
  have hall : (∀ x ∈ w.phpThreads, (fun thread : phpThread => thread.state.is stateInactive) x = false) ↔
      ∀ t ∈ w.phpThreads, t.state.currentState ≠ stateInactive := by
    simp [threadState.is]
  refine ⟨?_, ?_, ?_⟩
  · rintro ⟨t0, ht0, hs0⟩
    rcases key with ⟨_, hnone⟩ | ⟨i, t, hi, hp, hf, hlow⟩
    · exact absurd hs0 (hall.mp hnone t0 ht0)
    · refine ⟨i, t, hi, by simpa [threadState.is] using hp, ?_, by simp [getInactivePHPThread, hf]⟩
      intro j u hj hju
      simpa [threadState.is] using hlow j u hj hju
  · rcases key with ⟨hn, hnone⟩ | ⟨i, t, hi, hp, hf, hlow⟩
    · simp only [getInactivePHPThread, hn, true_iff]
      exact hall.mp hnone
    · simp only [getInactivePHPThread, hf, false_iff, reduceCtorEq]
      intro hcon
      have hmem : t ∈ w.phpThreads := List.mem_iff_getElem?.mpr ⟨i, hi⟩
      exact hcon t hmem (by simpa [threadState.is] using hp)
  · intro hnil
    simp [getInactivePHPThread, hnil]

/-- C3 at concrete pools: among an Uninitialized worker and two Inactive ones
the call returns the first Inactive one, and it panics on the empty pool. -/
theorem getInactivePHPThread_first_inactive_witness :
    (∃ i t, (poolWorld [newPHPThread 0, inactiveThread 1, inactiveThread 2]).phpThreads[i]? = some t ∧
      t.state.currentState = stateInactive ∧
      (∀ (j : Nat) (u : phpThread), j < i → (poolWorld [newPHPThread 0, inactiveThread 1, inactiveThread 2]).phpThreads[j]? = some u →
        u.state.currentState ≠ stateInactive) ∧
      getInactivePHPThread (poolWorld [newPHPThread 0, inactiveThread 1, inactiveThread 2]) = Except.ok t) ∧
    getInactivePHPThread (poolWorld []) = Except.error "not enough threads reserved" :=
  ⟨(getInactivePHPThread_first_inactive
      (poolWorld [newPHPThread 0, inactiveThread 1, inactiveThread 2])).1
      ⟨inactiveThread 1, by decide, by decide⟩,
   (getInactivePHPThread_first_inactive (poolWorld [])).2.2 rfl⟩

/-- C2 refuted: `getInactivePHPThread` writes nothing, so a second call with no
release in between finds the same first Inactive worker. On the pool of two
Inactive workers 0 and 1 both calls return worker 0. -/
theorem getInactivePHPThread_twice_same_counterexample :
    getInactivePHPThread (poolWorld [inactiveThread 0, inactiveThread 1])
        = Except.ok (inactiveThread 0) ∧
    ¬ (∀ (w : World) (t t2 : phpThread), getInactivePHPThread w = Except.ok t →
        getInactivePHPThread w = Except.ok t2 → t2.threadIndex ≠ t.threadIndex) := by
  refine ⟨rfl, ?_⟩
  intro h
  exact h (poolWorld [inactiveThread 0, inactiveThread 1]) (inactiveThread 0) (inactiveThread 0)
    rfl rfl rfl

/-- C2 as amended: in a pool whose workers carry their position as index, when
`getInactivePHPThread` returns `t` and the state of `t` is then moved to any
state other than Inactive, a following call that succeeds returns a worker
other than `t`. -/
theorem getInactivePHPThread_distinct_once_not_inactive (w : World) (t t2 : phpThread)
    (s : stateID) (hs : s ≠ stateInactive)
    (hidx : ∀ (j : Nat) (u : phpThread), w.phpThreads[j]? = some u → u.threadIndex = j)
    (_h1 : getInactivePHPThread w = Except.ok t)
    (h2 : getInactivePHPThread
        (w.modifyThread t.threadIndex (fun u => { u with state := u.state.set s }))
        = Except.ok t2) :
    t2.threadIndex ≠ t.threadIndex := by
  unfold getInactivePHPThread at h2
  split at h2
  · rename_i thread hfind
    injection h2 with h2
    subst h2
    have hp := List.find?_some hfind
    have hmem := List.mem_of_find?_eq_some hfind
    obtain ⟨k, hk⟩ := List.getElem?_of_mem hmem
    simp only [World.modifyThread, List.getElem?_modify] at hk
    cases hget : w.phpThreads[k]? with
    | none => simp [hget] at hk
    | some a =>
      simp only [hget, Option.map_eq_map, Option.map_some', Option.some.injEq] at hk
      by_cases hkn : t.threadIndex = k
      · simp only [hkn, if_true] at hk
        subst hk
        simp [threadState.is, threadState.set, hs] at hp
      · simp only [hkn, if_false] at hk
        subst hk
        have := hidx k a hget
        omega
  · cases h2

/-- C2 as amended, at a concrete pool: on two Inactive workers the first call
returns worker 0, and after worker 0 is made Active the next call returns
worker 1. -/
theorem getInactivePHPThread_distinct_once_not_inactive_witness :
    getInactivePHPThread (poolWorld [inactiveThread 0, inactiveThread 1])
        = Except.ok (inactiveThread 0) ∧
    getInactivePHPThread ((poolWorld [inactiveThread 0, inactiveThread 1]).modifyThread
        (inactiveThread 0).threadIndex (fun u => { u with state := u.state.set stateActive }))
        = Except.ok (inactiveThread 1) ∧
    (inactiveThread 1).threadIndex ≠ (inactiveThread 0).threadIndex :=
  ⟨rfl, rfl,
   getInactivePHPThread_distinct_once_not_inactive
    (poolWorld [inactiveThread 0, inactiveThread 1]) (inactiveThread 0) (inactiveThread 1)
    stateActive (by decide)
    (by
      intro j u h
      match j, h with
      | 0, h => simp [poolWorld, World.fresh] at h; subst h; rfl
      | 1, h => simp [poolWorld, World.fresh] at h; subst h; rfl
      | j + 2, h => simp [poolWorld, World.fresh] at h)
    rfl rfl⟩

/-! ### Scheduled steps, `await` and loops -/

/-- Reading the pool after an update of worker `i`. -/
theorem modifyThread_getElem (w : World) (i j : Nat) (f : phpThread → phpThread) :
    (w.modifyThread i f).phpThreads[j]? =
      (w.phpThreads[j]?).map (fun a => if i = j then f a else a) := by
  simp [World.modifyThread, List.getElem?_modify]

/-- An update of one worker keeps the size of the pool. -/
theorem modifyThread_length (w : World) (i : Nat) (f : phpThread → phpThread) :
    (w.modifyThread i f).phpThreads.length = w.phpThreads.length := by
  simp [World.modifyThread]

/-- Every scheduled step changes each worker only as `stepRel` allows. -/
theorem envStep_thread (e : Event) (w : World) (j : Nat) :
    ∃ g : phpThread → phpThread, (∀ t, stepRel t (g t)) ∧
      (envStep e w).phpThreads[j]? = (w.phpThreads[j]?).map g := by
  cases e with
  | mainThread =>
    refine ⟨id, fun t => Or.inl rfl, ?_⟩
    simp only [envStep, nativeMainStep, Option.map_id, id]
    cases w.nativeMain <;>
      simp [go_frankenphp_main_thread_is_ready, go_frankenphp_shutdown_main_thread,
        World.modifyMain]
    split <;> rfl
  | worker i =>
    simp only [envStep, nativeWorkerStep]
    split
    · refine ⟨fun a => if i = j then
          (if a.drainChan then { a with state := a.state.set stateDone } else a) else a, ?_,
        modifyThread_getElem _ _ _ _⟩
      intro t
      beta_reduce
      by_cases hij : i = j
      · by_cases hd : t.drainChan = true
        · rw [if_pos hij, if_pos hd]
          exact Or.inr (Or.inl ⟨hd, rfl⟩)
        · rw [if_pos hij, if_neg hd]
          exact Or.inl rfl
      · rw [if_neg hij]
        exact Or.inl rfl
    · exact ⟨id, fun t => Or.inl rfl, by simp⟩
  | release i =>
    simp only [envStep, releaseStep]
    refine ⟨fun a => if i = j then
        (if a.handlerMu = some LockHolder.caller then
          { a with state := a.state.set stateInactive, handlerMu := none } else a) else a, ?_,
      modifyThread_getElem _ _ _ _⟩
    intro t
    beta_reduce
    by_cases hij : i = j
    · by_cases hd : t.handlerMu = some LockHolder.caller
      · rw [if_pos hij, if_pos hd]
        exact Or.inr (Or.inr ⟨hd, rfl⟩)
      · rw [if_pos hij, if_neg hd]
        exact Or.inl rfl
    · rw [if_neg hij]
      exact Or.inl rfl

/-- A scheduled step keeps the size of the pool. -/
theorem envStep_length (e : Event) (w : World) :
    (envStep e w).phpThreads.length = w.phpThreads.length := by
  cases e with
  | mainThread =>
    simp only [envStep, nativeMainStep]
    cases w.nativeMain <;>
      simp [go_frankenphp_main_thread_is_ready, go_frankenphp_shutdown_main_thread,
        World.modifyMain]
    split <;> rfl
  | worker i =>
    simp only [envStep, nativeWorkerStep]
    split
    · exact modifyThread_length _ _ _
    · rfl
  | release i => exact modifyThread_length _ _ _

/-- A property of workers that no scheduled step can break stays true of the
worker at position `j` across a scheduled step. -/
theorem envStep_threadAll (Q : phpThread → Prop)
    (hQ : ∀ t t', stepRel t t' → Q t → Q t') (e : Event) (w : World) (j : Nat)
    (h : w.threadAll j Q) : (envStep e w).threadAll j Q := by
  obtain ⟨g, hg, hget⟩ := envStep_thread e w j
  intro t' ht'
  rw [hget] at ht'
  cases hw : w.phpThreads[j]? with
  | none => simp [hw] at ht'
  | some t =>
    simp only [hw, Option.map_some', Option.some.injEq] at ht'
    subst ht'
    exact hQ t (g t) (hg t) (h t hw)

/-- An invariant of scheduled steps holds in the state `await` ends in. -/
theorem await_world_inv (I : World → Prop) (hI : ∀ e w, I w → I (envStep e w))
    (cond : World → Bool) (sched : List Event) :
    ∀ w, I w → I (await cond w sched).world := by
  induction sched with
  | nil =>
    intro w hw
    simp only [await]
    split <;> exact hw
  | cons e es ih =>
    intro w hw
    simp only [await]
    split
    · exact hw
    · exact ih _ (hI e w hw)

/-- When `await` returns, its condition holds. -/
theorem await_ret_cond (cond : World → Bool) (sched : List Event) :
    ∀ w w' rest, await cond w sched = Res.ret () w' rest → cond w' = true := by
  induction sched with
  | nil =>
    intro w w' rest h
    simp only [await] at h
    split at h
    · injection h with _ hw _
      subst hw
      assumption
    · cases h
  | cons e es ih =>
    intro w w' rest h
    simp only [await] at h
    split at h
    · injection h with _ hw _
      subst hw
      assumption
    · exact ih _ _ _ h

/-- An invariant of every loop body holds in the state `forEach` ends in. -/
theorem forEach_world_inv (I : World → Prop)
    (body : Nat → World → List Event → Res Unit)
    (hI : ∀ i w s, I w → I (body i w s).world) (l : List Nat) :
    ∀ w s, I w → I (forEach body l w s).world := by
  induction l with
  | nil => intro w s hw; exact hw
  | cons i rest ih =>
    intro w s hw
    have hb := hI i w s hw
    simp only [forEach]
    cases hr : body i w s with
    | ret a w1 s1 =>
      rw [hr] at hb
      exact ih w1 s1 hb
    | panicked msg w1 => rw [hr] at hb; exact hb
    | blocked w1 => rw [hr] at hb; exact hb

/-! ### The first loop of `drainPHPThreads` (C5, C9, C10) -/

/-- When its condition already holds, `await` returns at once and leaves the
schedule untouched. -/
theorem await_of_cond (cond : World → Bool) (w : World) (sched : List Event)
    (h : cond w = true) : await cond w sched = Res.ret () w sched := by
  cases sched <;> simp [await, h]

/-- An update that keeps `Q` keeps it true of whatever is at position `i`. -/
theorem modifyThread_threadAll (Q : phpThread → Prop) (f : phpThread → phpThread)
    (hf : ∀ t, Q t → Q (f t)) (w : World) (i j : Nat) (h : w.threadAll i Q) :
    (w.modifyThread j f).threadAll i Q := by
  intro t' ht'
  rw [modifyThread_getElem] at ht'
  cases hw : w.phpThreads[i]? with
  | none => simp [hw] at ht'
  | some t =>
    simp only [hw, Option.map_some', Option.some.injEq] at ht'
    subst ht'
    split
    · exact hf t (h t hw)
    · exact h t hw

/-- An update of worker `i` whose result always has `Q` makes `Q` true of
whatever is at position `i`. -/
theorem modifyThread_threadAll_self (Q : phpThread → Prop) (f : phpThread → phpThread)
    (hf : ∀ t, Q (f t)) (w : World) (i : Nat) :
    (w.modifyThread i f).threadAll i Q := by
  intro t' ht'
  rw [modifyThread_getElem] at ht'
  cases hw : w.phpThreads[i]? with
  | none => simp [hw] at ht'
  | some t =>
    simp only [hw, Option.map_some', Option.some.injEq, if_true] at ht'
    subst ht'
    exact hf t

/-- The request for ShuttingDown never leaves a state Inactive that was not
Inactive before. -/
theorem request_not_inactive (permitted : stateID → stateID → Bool) (ts : threadState)
    (h : ts.currentState ≠ stateInactive) :
    (ts.requestSafeStateChange permitted stateShuttingDown).1.currentState ≠ stateInactive := by
  unfold threadState.requestSafeStateChange
  split
  · simp
  · exact h

/-- A worker that no caller holds and that is not Inactive: no scheduled step
changes that. -/
theorem notInactive_stable (t t' : phpThread) (h : stepRel t t')
    (hQ : t.outOfReach) : t'.outOfReach := by
  rcases h with rfl | ⟨_, rfl⟩ | ⟨hc, _⟩
  · exact hQ
  · exact ⟨hQ.1, by simp [threadState.set]⟩
  · exact absurd hc hQ.1

/-- The statements of `drainPHPThreads` that write to a worker (taking or
releasing its lock, requesting ShuttingDown, closing its drain signal) keep it
out of reach. -/
theorem outOfReach_writes (P : Params) (t : phpThread) (h : t.outOfReach) :
    phpThread.outOfReach { t with handlerMu := some LockHolder.supervisor } ∧
    phpThread.outOfReach { t with handlerMu := none } ∧
    phpThread.outOfReach { t with drainChan := true } ∧
    phpThread.outOfReach { t with
      state := (t.state.requestSafeStateChange P.permitted stateShuttingDown).1 } := by
  unfold phpThread.outOfReach at h ⊢
  exact ⟨⟨by simp, h.2⟩, ⟨by simp, h.2⟩, h, ⟨h.1, request_not_inactive _ _ h.2⟩⟩

/-- The state `closeDrainChan` ends in keeps every property of workers that an
update of the drain signal keeps. -/
theorem closeDrainChan_threadAll (Q : phpThread → Prop)
    (hf : ∀ t, Q t → Q { t with drainChan := true }) (w : World) (i j : Nat)
    (sched : List Event) (h : w.threadAll i Q) :
    (closeDrainChan j w sched).world.threadAll i Q := by
  unfold closeDrainChan
  split
  · exact h
  · exact modifyThread_threadAll Q _ hf w i j h

/-- No statement of `drainPHPThreads` and no scheduled step makes a worker
Inactive, or held by a caller, that was neither before. -/
theorem DrainStep_run_notInactive (P : Params) (d : DrainStep) (w : World) (i : Nat)
    (h : w.threadAll i phpThread.outOfReach) :
    (d.run P w).threadAll i phpThread.outOfReach := by
  have henv : ∀ (e : Event) (v : World),
      v.threadAll i phpThread.outOfReach →
      (envStep e v).threadAll i phpThread.outOfReach :=
    fun e v hv => envStep_threadAll _ notInactive_stable e v i hv
  cases d with
  | env e => exact henv e w h
  | lock j sched =>
    have hw := await_world_inv _ henv (fun v => v.lockFree j) sched w h
    simp only [DrainStep.run, shutdownThread]
    cases hr : await (fun v => v.lockFree j) w sched with
    | ret a w1 s1 =>
      rw [hr] at hw
      dsimp only
      refine closeDrainChan_threadAll phpThread.outOfReach
        (fun t ht => (outOfReach_writes P t ht).2.2.1) _ _ _ _ ?_
      refine modifyThread_threadAll phpThread.outOfReach _
        (fun t ht => (outOfReach_writes P t ht).2.2.2) _ _ _ ?_
      exact modifyThread_threadAll phpThread.outOfReach _
        (fun t ht => (outOfReach_writes P t ht).1) _ _ _ hw
    | panicked msg w1 => rw [hr] at hw; exact hw
    | blocked w1 => rw [hr] at hw; exact hw
  | closeDone =>
    simp only [DrainStep.run, closeMainDone]
    split
    · exact h
    · split <;> exact h
  | join j sched =>
    have hw := await_world_inv _ henv (fun v => v.threadIs j stateDone) sched w h
    simp only [DrainStep.run, awaitThreadDone, waitForThread]
    cases hr : await (fun v => v.threadIs j stateDone) w sched with
    | ret a w1 s1 =>
      rw [hr] at hw
      dsimp only
      split
      · exact hw
      · exact modifyThread_threadAll phpThread.outOfReach _
          (fun t ht => (outOfReach_writes P t ht).2.1) _ _ _ hw
    | panicked msg w1 => rw [hr] at hw; exact hw
    | blocked w1 => rw [hr] at hw; exact hw
  | setShuttingDown => exact h
  | waitMain sched =>
    simp only [DrainStep.run, waitForMain]
    split
    · exact h
    · exact await_world_inv _ henv _ sched w h
  | dropPool =>
    intro t ht
    simp [DrainStep.run] at ht

/-- The same across a list of steps. -/
theorem DrainStep_runAll_notInactive (P : Params) (ds : List DrainStep) (i : Nat) :
    ∀ w : World, w.threadAll i phpThread.outOfReach →
    (DrainStep.runAll P ds w).threadAll i phpThread.outOfReach := by
  induction ds with
  | nil => intro w h; exact h
  | cons d ds ih =>
    intro w h
    exact ih _ (DrainStep_run_notInactive P d w i h)

/-- Once the first loop of `drainPHPThreads` has got past the lock of worker
`i`, the supervisor holds the worker and, when Inactive may move to
ShuttingDown, the worker is not Inactive. -/
theorem shutdownThread_hands_over (P : Params)
    (hP : P.permitted stateInactive stateShuttingDown = true) (w : World) (i : Nat)
    (sched : List Event) (hnb : (shutdownThread P i w sched).isBlocked = false) :
    (shutdownThread P i w sched).world.threadAll i phpThread.outOfReach := by
  unfold shutdownThread at hnb ⊢
  cases hr : await (fun v => v.lockFree i) w sched with
  | ret a w1 s1 =>
    dsimp only
    refine closeDrainChan_threadAll phpThread.outOfReach
      (fun t ht => (outOfReach_writes P t ht).2.2.1) _ _ _ _ ?_
    have h1 : (takeLock i w1).threadAll i (fun t => t.handlerMu = some LockHolder.supervisor) :=
      modifyThread_threadAll_self (fun t => t.handlerMu = some LockHolder.supervisor)
        (fun t => { t with handlerMu := some LockHolder.supervisor }) (fun t => rfl) w1 i
    intro t' ht'
    simp only [requestShuttingDown, modifyThread_getElem] at ht'
    cases hw : (takeLock i w1).phpThreads[i]? with
    | none => simp [hw] at ht'
    | some t =>
      simp only [hw, Option.map_some', Option.some.injEq, if_true] at ht'
      subst ht'
      unfold phpThread.outOfReach
      refine ⟨by simp [h1 t hw], ?_⟩
      by_cases hs : t.state.currentState = stateInactive
      · simp [threadState.requestSafeStateChange, hs, hP]
      · exact request_not_inactive _ _ hs
  | panicked msg w1 =>
    exfalso
    have hne : ∀ (s : List Event) (v : World) (m : String) (v' : World),
        await (fun v => v.lockFree i) v s ≠ Res.panicked m v' := by
      intro s
      induction s with
      | nil => intro v m v'; simp only [await]; split <;> simp
      | cons e es ih => intro v m v'; simp only [await]; split <;> simp [ih]
    exact hne _ _ _ _ hr
  | blocked w1 =>
    rw [hr] at hnb
    simp [Res.isBlocked] at hnb

/-- C5: once the first loop of `drainPHPThreads` has taken the lock of worker
`i` and requested ShuttingDown for it (the loop body did not stay blocked on
the lock), then after any further scheduled steps and statements of
`drainPHPThreads` worker `i` is not Inactive, and a call of
`getInactivePHPThread` that succeeds returns a worker other than worker `i`.
The table of transitions is taken to let an Inactive worker move to
ShuttingDown, as the shutdown path of the spec has it. -/
theorem handed_to_shutdown_never_acquired (P : Params)
    (hP : P.permitted stateInactive stateShuttingDown = true) (w : World) (i : Nat)
    (sched : List Event) (hnb : (shutdownThread P i w sched).isBlocked = false)
    (later : List DrainStep) :
    (DrainStep.runAll P later (shutdownThread P i w sched).world).threadAll i
      (fun t => t.state.currentState ≠ stateInactive) ∧
    ∀ t, getInactivePHPThread (DrainStep.runAll P later (shutdownThread P i w sched).world)
        = Except.ok t →
      (DrainStep.runAll P later (shutdownThread P i w sched).world).phpThreads[i]? ≠ some t := by
  have hinv := DrainStep_runAll_notInactive P later i _ (shutdownThread_hands_over P hP w i sched hnb)
  refine ⟨fun t ht => (hinv t ht).2, ?_⟩
  intro t hacq hget
  have hni := (hinv t hget).2
  unfold getInactivePHPThread at hacq
  split at hacq
  · rename_i thread hfind
    injection hacq with hacq
    subst hacq
    have hp := List.find?_some hfind
    simp [threadState.is] at hp
    exact hni hp
  · cases hacq

/-- C5 at a concrete pool: worker 0 of two Inactive workers is handed to
shutdown; then the caller of worker 1 is scheduled and the loop goes on to
close `mainThread.done`; a call of `getInactivePHPThread` returns worker 1. -/
theorem handed_to_shutdown_never_acquired_witness :
    (shutdownThread exampleParams 0 (runningWorld [inactiveThread 0, inactiveThread 1])
      []).isBlocked = false ∧
    getInactivePHPThread (DrainStep.runAll exampleParams
      [DrainStep.env (Event.release 1), DrainStep.closeDone]
      (shutdownThread exampleParams 0 (runningWorld [inactiveThread 0, inactiveThread 1])
        []).world) = Except.ok (inactiveThread 1) ∧
    (DrainStep.runAll exampleParams [DrainStep.env (Event.release 1), DrainStep.closeDone]
      (shutdownThread exampleParams 0 (runningWorld [inactiveThread 0, inactiveThread 1])
        []).world).phpThreads[0]? ≠ some (inactiveThread 1) :=
  ⟨rfl, rfl,
   (handed_to_shutdown_never_acquired exampleParams rfl
      (runningWorld [inactiveThread 0, inactiveThread 1]) 0 [] rfl
      [DrainStep.env (Event.release 1), DrainStep.closeDone]).2 (inactiveThread 1) rfl⟩

/-- No scheduled step opens or closes a drain signal. -/
theorem drainChan_stable (b : Bool) (t t' : phpThread) (h : stepRel t t')
    (hQ : t.drainChan = b) : t'.drainChan = b := by
  rcases h with rfl | ⟨_, rfl⟩ | ⟨_, rfl⟩ <;> exact hQ

/-- The function `await` never panics. -/
theorem await_ne_panicked (cond : World → Bool) (sched : List Event) :
    ∀ (w : World) (msg : String) (w' : World), await cond w sched ≠ Res.panicked msg w' := by
  induction sched with
  | nil => intro w msg w'; simp only [await]; split <;> simp
  | cons e es ih => intro w msg w'; simp only [await]; split <;> simp [ih]

/-- C9 as amended: closing a drain signal is not idempotent. When the first
loop of `drainPHPThreads` gets past the lock of worker `i`, it closes the
drain signal of the worker when the signal was open and goes on, and it panics
with "close of closed channel" when the signal was already closed. -/
theorem shutdownThread_close_once (P : Params) (w : World) (i : Nat) (t : phpThread)
    (sched : List Event) (hget : w.phpThreads[i]? = some t)
    (hnb : (shutdownThread P i w sched).isBlocked = false) :
    (t.drainChan = false →
      (shutdownThread P i w sched).returned = true ∧
      (shutdownThread P i w sched).world.drainClosed i = true) ∧
    (t.drainChan = true →
      (shutdownThread P i w sched).panicMsg = some "close of closed channel") := by
  have hstable : ∀ b : Bool, t.drainChan = b →
      (await (fun v => v.lockFree i) w sched).world.threadAll i (fun u => u.drainChan = b) := by
    intro b hb
    refine await_world_inv _ (fun e v hv => envStep_threadAll _ (drainChan_stable b) e v i hv)
      _ sched w ?_
    intro u hu
    rw [hget] at hu
    injection hu with hu
    subst hu
    exact hb
  unfold shutdownThread at hnb ⊢
  cases hr : await (fun v => v.lockFree i) w sched with
  | ret a w1 s1 =>
    rw [hr] at hstable
    have hfree := await_ret_cond _ sched w w1 s1 hr
    simp only [World.lockFree] at hfree
    cases hw1 : w1.phpThreads[i]? with
    | none => simp [hw1] at hfree
    | some u =>
      have hclosed : ∀ b : Bool, t.drainChan = b →
          (requestShuttingDown P i (takeLock i w1)).drainClosed i = b := by
        intro b hb
        have := hstable b hb u hw1
        simp [World.drainClosed, requestShuttingDown, takeLock, modifyThread_getElem, hw1, this]
      dsimp only
      constructor
      · intro hopen
        have hc := hclosed false hopen
        unfold closeDrainChan
        rw [hc]
        simp only [Bool.false_eq_true, if_false, Res.returned, Res.world, true_and]
        simp [World.drainClosed, modifyThread_getElem, requestShuttingDown, takeLock, hw1]
      · intro hshut
        have hc := hclosed true hshut
        unfold closeDrainChan
        rw [hc]
        simp [Res.panicMsg]
  | panicked msg w1 => exact absurd hr (await_ne_panicked _ _ _ _ _)
  | blocked w1 =>
    rw [hr] at hnb
    simp [Res.isBlocked] at hnb

/-- C9 as amended, at concrete pools: an open drain signal is closed, and a
closed one makes the loop body panic. -/
theorem shutdownThread_close_once_witness :
    ((shutdownThread exampleParams 0 (runningWorld [inactiveThread 0]) []).returned = true ∧
      (shutdownThread exampleParams 0 (runningWorld [inactiveThread 0]) []).world.drainClosed 0
        = true) ∧
    (shutdownThread exampleParams 0 (runningWorld [drainedThread 0]) []).panicMsg
      = some "close of closed channel" :=
  ⟨(shutdownThread_close_once exampleParams (runningWorld [inactiveThread 0]) 0
      (inactiveThread 0) [] rfl rfl).1 rfl,
   (shutdownThread_close_once exampleParams (runningWorld [drainedThread 0]) 0
      (drainedThread 0) [] rfl rfl).2 rfl⟩

/-- C9 refuted: on a pool whose only worker has its drain signal closed already,
`drainPHPThreads` closes it again and panics with "close of closed channel",
whatever the schedule. -/
theorem drainPHPThreads_double_close_counterexample :
    (drainedThread 0).drainChan = true ∧
    ∀ sched : List Event,
      (drainPHPThreads exampleParams (runningWorld [drainedThread 0]) sched).panicMsg
        = some "close of closed channel" := by
  refine ⟨rfl, ?_⟩
  intro sched
  cases sched <;> rfl

/-- C10 as amended: `drainPHPThreads` drops a refused request. For every pool
and every worker with a free lock and an open drain signal for which
`requestSafeStateChange(stateShuttingDown)` fails, the loop body returns
without fault and without waiting, the worker keeps its state, its lock is
taken and its drain signal is closed, and the loop goes on with the next
worker. -/
theorem shutdownThread_drops_refusal (P : Params) (w : World) (i : Nat) (t : phpThread)
    (sched : List Event) (rest : List Nat) (hget : w.phpThreads[i]? = some t)
    (hfree : t.handlerMu = none) (hopen : t.drainChan = false)
    (hrefused : (t.state.requestSafeStateChange P.permitted stateShuttingDown).2 = false) :
    shutdownThread P i w sched = Res.ret () (shutdownThread P i w sched).world sched ∧
    (shutdownThread P i w sched).world.phpThreads[i]? =
      some { t with handlerMu := some LockHolder.supervisor, drainChan := true } ∧
    forEach (shutdownThread P) (i :: rest) w sched =
      forEach (shutdownThread P) rest (shutdownThread P i w sched).world sched := by
  have hcond : (fun v : World => v.lockFree i) w = true := by
    simp [World.lockFree, hget, hfree]
  have hstate : (t.state.requestSafeStateChange P.permitted stateShuttingDown).1 = t.state := by
    unfold threadState.requestSafeStateChange at hrefused ⊢
    split
    · rename_i hp
      simp [hp] at hrefused
    · rfl
  have hclosed : (requestShuttingDown P i (takeLock i w)).drainClosed i = false := by
    simp [World.drainClosed, requestShuttingDown, takeLock, modifyThread_getElem, hget, hopen]
  have hrun : shutdownThread P i w sched =
      Res.ret () ((requestShuttingDown P i (takeLock i w)).modifyThread i
        (fun t => { t with drainChan := true })) sched := by
    unfold shutdownThread
    rw [await_of_cond _ w sched hcond]
    dsimp only
    unfold closeDrainChan
    rw [hclosed]
    simp
  refine ⟨?_, ?_, ?_⟩
  · rw [hrun]; rfl
  · rw [hrun]
    simp [Res.world, requestShuttingDown, takeLock, modifyThread_getElem, hget, hstate]
  · conv_lhs => rw [forEach, hrun]
    rw [hrun]
    rfl

/-- C10 as amended, at a concrete pool: worker 0 is Done, which the example
table does not let move to ShuttingDown. -/
theorem shutdownThread_drops_refusal_witness :
    shutdownThread exampleParams 0 (runningWorld [doneThread 0, inactiveThread 1]) []
      = Res.ret ()
        (shutdownThread exampleParams 0 (runningWorld [doneThread 0, inactiveThread 1]) []).world
        [] ∧
    (shutdownThread exampleParams 0
        (runningWorld [doneThread 0, inactiveThread 1]) []).world.phpThreads[0]? =
      some { doneThread 0 with handlerMu := some LockHolder.supervisor, drainChan := true } ∧
    forEach (shutdownThread exampleParams) (0 :: [1])
        (runningWorld [doneThread 0, inactiveThread 1]) [] =
      forEach (shutdownThread exampleParams) [1]
        (shutdownThread exampleParams 0
          (runningWorld [doneThread 0, inactiveThread 1]) []).world [] :=
  shutdownThread_drops_refusal exampleParams (runningWorld [doneThread 0, inactiveThread 1]) 0
    (doneThread 0) [] [1] rfl rfl rfl rfl

/-- C10 refuted: worker 0 is Done and the request for ShuttingDown fails for
it; `drainPHPThreads` does not end with that violation: it closes the drain
signal of the worker all the same and returns, the supervisor Done. -/
theorem drainPHPThreads_ignores_violation_counterexample :
    ((doneThread 0).state.requestSafeStateChange exampleParams.permitted stateShuttingDown).2
      = false ∧
    (drainPHPThreads exampleParams (runningWorld [doneThread 0])
      [Event.mainThread, Event.mainThread]).returned = true ∧
    (drainBody exampleParams (runningWorld [doneThread 0])
      [Event.mainThread, Event.mainThread]).world.phpThreads
      = [{ doneThread 0 with drainChan := true }] ∧
    (drainPHPThreads exampleParams (runningWorld [doneThread 0])
      [Event.mainThread, Event.mainThread]).world.mainState = some stateDone := by
  refine ⟨rfl, rfl, rfl, rfl⟩

/-! ### `initPHPThreads` (C1, C6) -/

/-- A scheduled step changes nothing in a pool in which no caller holds a
worker and every drain signal is open. -/
theorem envStep_pool_fixed (e : Event) (w : World)
    (h : ∀ t ∈ w.phpThreads, t.handlerMu ≠ some LockHolder.caller ∧ t.drainChan = false) :
    (envStep e w).phpThreads = w.phpThreads := by
  apply List.ext_getElem?
  intro j
  obtain ⟨g, hg, hget⟩ := envStep_thread e w j
  rw [hget]
  cases hw : w.phpThreads[j]? with
  | none => rfl
  | some t =>
    have ht := h t (List.mem_iff_getElem?.mpr ⟨j, hw⟩)
    simp only [Option.map_some', Option.some.injEq]
    rcases hg t with h1 | ⟨h1, _⟩ | ⟨h1, _⟩
    · exact h1
    · rw [ht.2] at h1; cases h1
    · exact absurd h1 ht.1

/-- The workers `initPHPThreads` allocates: as many as asked for, the one at
position `i` being the Inactive worker with index `i`. -/
theorem allocThreads_spec (n : Nat) :
    (allocThreads n).length = n ∧
    (∀ i, i < n → (allocThreads n)[i]? = some (inactiveThread i)) ∧
    ∀ t ∈ allocThreads n, t.state.currentState = stateInactive ∧ t.handlerMu = none ∧
      t.drainChan = false := by
  refine ⟨by simp [allocThreads], ?_, ?_⟩
  · intro i hi
    simp [allocThreads, List.getElem?_range hi, inactiveThread]
  · intro t ht
    simp only [allocThreads, List.mem_map] at ht
    obtain ⟨i, _, rfl⟩ := ht
    exact ⟨rfl, rfl, rfl⟩

/-- A scheduled step keeps the pool `initPHPThreads` allocated. -/
theorem envStep_allocThreads (n : Nat) (e : Event) (w : World)
    (h : w.phpThreads = allocThreads n) : (envStep e w).phpThreads = allocThreads n := by
  rw [← h]
  apply envStep_pool_fixed
  intro t ht
  rw [h] at ht
  have := (allocThreads_spec n).2.2 t ht
  exact ⟨by simp [this.2.1], this.2.2⟩

/-- Filling the caches touches neither the pool nor the state of the main
thread, the native threads or whether there is a main thread. -/
theorem buildCaches_frame (eng : Engine) (P : Params) (w : World) :
    (buildCaches eng P w).phpThreads = w.phpThreads ∧
    (buildCaches eng P w).mainState = w.mainState ∧
    (buildCaches eng P w).nativeMain = w.nativeMain ∧
    (buildCaches eng P w).nativeWorkers = w.nativeWorkers := by
  have hc : ∀ (l : List (String × String)) (v : World),
      (l.foldl (cacheCommonHeader eng) v).phpThreads = v.phpThreads ∧
      (l.foldl (cacheCommonHeader eng) v).mainState = v.mainState ∧
      (l.foldl (cacheCommonHeader eng) v).nativeMain = v.nativeMain ∧
      (l.foldl (cacheCommonHeader eng) v).nativeWorkers = v.nativeWorkers := by
    intro l
    induction l with
    | nil => intro v; exact ⟨rfl, rfl, rfl, rfl⟩
    | cons a l ih =>
      intro v
      obtain ⟨h1, h2, h3, h4⟩ := ih (cacheCommonHeader eng v a)
      simp only [List.foldl_cons]
      refine ⟨h1.trans rfl, h2.trans ?_, h3.trans rfl, h4.trans rfl⟩
      cases hm : v.mainThread <;>
        simp [cacheCommonHeader, World.mainState, World.modifyMain, World.logCall, hm]
  have hs : ∀ (l : List String) (v : World),
      (l.foldl (cacheServerKey eng) v).phpThreads = v.phpThreads ∧
      (l.foldl (cacheServerKey eng) v).mainState = v.mainState ∧
      (l.foldl (cacheServerKey eng) v).nativeMain = v.nativeMain ∧
      (l.foldl (cacheServerKey eng) v).nativeWorkers = v.nativeWorkers := by
    intro l
    induction l with
    | nil => intro v; exact ⟨rfl, rfl, rfl, rfl⟩
    | cons a l ih =>
      intro v
      obtain ⟨h1, h2, h3, h4⟩ := ih (cacheServerKey eng v a)
      simp only [List.foldl_cons]
      refine ⟨h1.trans rfl, h2.trans ?_, h3.trans rfl, h4.trans rfl⟩
      cases hm : v.mainThread <;>
        simp [cacheServerKey, World.mainState, World.modifyMain, World.logCall, hm]
  have hm : ∀ (v : World) (f : phpMainThread → phpMainThread),
      (∀ m, (f m).state = m.state) → (v.modifyMain f).mainState = v.mainState := by
    intro v f hf
    cases hv : v.mainThread <;> simp [World.mainState, World.modifyMain, hv, hf]
  unfold buildCaches
  dsimp only
  obtain ⟨a1, a2, a3, a4⟩ := hs P.knownServerKeys
    ((P.CommonRequestHeaders.foldl (cacheCommonHeader eng)
      (w.modifyMain (fun m => { m with commonHeaders := ZendMap.empty }))).modifyMain
      (fun m => { m with knownServerKeys := ZendMap.empty }))
  obtain ⟨b1, b2, b3, b4⟩ := hc P.CommonRequestHeaders
    (w.modifyMain (fun m => { m with commonHeaders := ZendMap.empty }))
  refine ⟨a1.trans (b1.trans rfl), a2.trans ?_, a3.trans (b3.trans rfl), a4.trans (b4.trans rfl)⟩
  have e1 : ∀ v : World,
      (v.modifyMain (fun m => { m with knownServerKeys := ZendMap.empty })).mainState
        = v.mainState := fun v => hm v _ (fun m => rfl)
  have e2 : ∀ v : World,
      (v.modifyMain (fun m => { m with commonHeaders := ZendMap.empty })).mainState
        = v.mainState := fun v => hm v _ (fun m => rfl)
  exact (e1 _).trans (b2.trans (e2 _))

/-- Starting a native thread touches neither the pool nor the main thread. -/
theorem startNativeThread_frame (eng : Engine) (i : Nat) (w : World) (s : List Event) :
    (startNativeThread eng i w s).world.phpThreads = w.phpThreads ∧
    (startNativeThread eng i w s).world.mainState = w.mainState := by
  unfold startNativeThread
  split
  · exact ⟨rfl, rfl⟩
  · dsimp only
    split <;> exact ⟨rfl, rfl⟩

/-- Waiting for Inactive returns at once, for each listed worker, in a pool
whose workers are all Inactive. -/
theorem forEach_waitInactive_ret (w : World) (s : List Event)
    (hall : ∀ t ∈ w.phpThreads, t.state.currentState = stateInactive) (l : List Nat)
    (hl : ∀ i ∈ l, i < w.phpThreads.length) :
    forEach (fun i => waitForThread i stateInactive) l w s = Res.ret () w s := by
  induction l with
  | nil => rfl
  | cons i rest ih =>
    have hi : i < w.phpThreads.length := hl i (List.mem_cons_self _ _)
    have hcond : (fun v : World => v.threadIs i stateInactive) w = true := by
      have hget : w.phpThreads[i]? = some w.phpThreads[i] := List.getElem?_eq_getElem hi
      have := hall _ (List.getElem_mem hi)
      simp [World.threadIs, hget, threadState.is, this]
    simp only [forEach, waitForThread]
    rw [await_of_cond _ w s hcond]
    exact ih (fun j hj => hl j (List.mem_cons_of_mem _ hj))

/-- When `waitFor` on the main thread returns, the main thread has the state
waited for. -/
theorem waitForMain_ret_cond (target : stateID) (w : World) (sched : List Event) (w' : World)
    (rest : List Event) (h : waitForMain target w sched = Res.ret () w' rest) :
    w'.mainState = some target := by
  unfold waitForMain at h
  split at h
  · cases h
  · simpa using await_ret_cond _ sched w w' rest h

/-- An invariant of scheduled steps holds in the state `waitFor` on the main
thread ends in. -/
theorem waitForMain_world_inv (I : World → Prop) (hI : ∀ e w, I w → I (envStep e w))
    (target : stateID) (w : World) (sched : List Event) (h : I w) :
    I (waitForMain target w sched).world := by
  unfold waitForMain
  split
  · exact h
  · exact await_world_inv I hI _ sched w h

/-- When `start` returns without error on the allocated pool, the pool is as
allocated and the main thread is Ready. -/
theorem start_ret_none (eng : Engine) (P : Params) (n : Nat) (w : World) (sched : List Event)
    (w2 : World) (s2 : List Event) (hpool : w.phpThreads = allocThreads n)
    (h : phpMainThread.start eng P w sched = Res.ret none w2 s2) :
    w2.phpThreads = allocThreads n ∧ w2.mainState = some stateReady := by
  unfold phpMainThread.start at h
  split at h
  · cases h
  · rename_i m hm
    dsimp only at h
    split at h
    · cases h
    · split at h
      · rename_i a w3 s3 hr
        injection h with _ hw hs
        subst hw
        have hcond := waitForMain_ret_cond _ _ _ _ _ hr
        have hinv := waitForMain_world_inv (fun v => v.phpThreads = allocThreads n)
          (fun e v hv => envStep_allocThreads n e v hv) stateReady _ sched
          (show ({ (w.logCall (CFn.new_main_thread (cInt m.numThreads)
              (eng.frankenphp_new_main_thread w.calls (cInt m.numThreads)))) with
            nativeMain := NativeMain.booting } : World).phpThreads = allocThreads n from hpool)
        rw [hr] at hinv
        have hf := buildCaches_frame eng P w3
        exact ⟨hf.1.trans hinv, hf.2.1.trans hcond⟩
      · cases h
      · cases h

/-- When the bootstrap succeeds and the native main thread is scheduled next,
`start` on a fresh main thread returns without error and leaves the pool as it
was. -/
theorem start_returns (eng : Engine) (P : Params) (w : World) (m : phpMainThread)
    (sched : List Event) (hm : w.mainThread = some m) (hfresh : m.state = newThreadState)
    (hboot : eng.frankenphp_new_main_thread w.calls (cInt m.numThreads) = 0) :
    ∃ w2, phpMainThread.start eng P w (Event.mainThread :: sched) = Res.ret none w2 sched ∧
      w2.phpThreads = w.phpThreads := by
  refine ⟨buildCaches eng P (envStep Event.mainThread
    { (w.logCall (CFn.new_main_thread (cInt m.numThreads) 0)) with
      nativeMain := NativeMain.booting }), ?_, ?_⟩
  · unfold phpMainThread.start
    rw [hm]
    dsimp only
    rw [hboot]
    simp only [ne_eq, not_true_eq_false, if_false]
    have hwait : waitForMain stateReady
        { (w.logCall (CFn.new_main_thread (cInt m.numThreads) 0)) with
          nativeMain := NativeMain.booting } (Event.mainThread :: sched)
        = Res.ret () (envStep Event.mainThread
          { (w.logCall (CFn.new_main_thread (cInt m.numThreads) 0)) with
            nativeMain := NativeMain.booting }) sched := by
      unfold waitForMain
      simp only [World.logCall, hm]
      simp only [await, World.mainState, hm, hfresh, newThreadState, Option.map_some',
        Option.some.injEq, reduceCtorEq, decide_False, Bool.false_eq_true, if_false]
      apply await_of_cond
      simp [envStep, nativeMainStep, go_frankenphp_main_thread_is_ready, World.modifyMain,
        World.mainState, hm, threadState.set]
    rw [hwait]
  · rw [(buildCaches_frame eng P _).1]
    simp [envStep, nativeMainStep, go_frankenphp_main_thread_is_ready, World.modifyMain,
      World.logCall]

/-- When every call of `frankenphp_new_php_thread` succeeds, the loop that
starts the native threads returns and touches neither the pool nor the main
thread. -/
theorem forEach_start_ret (eng : Engine)
    (hall : ∀ calls i, eng.frankenphp_new_php_thread calls i = true) (l : List Nat) :
    ∀ (w : World) (s : List Event), (∀ i ∈ l, i < w.phpThreads.length) →
      ∃ w', forEach (startNativeThread eng) l w s = Res.ret () w' s ∧
        w'.phpThreads = w.phpThreads ∧ w'.mainState = w.mainState := by
  induction l with
  | nil => intro w s _; exact ⟨w, rfl, rfl, rfl⟩
  | cons i rest ih =>
    intro w s hl
    have hi : i < w.phpThreads.length := hl i (List.mem_cons_self _ _)
    have hget : w.phpThreads[i]? = some w.phpThreads[i] := List.getElem?_eq_getElem hi
    have hrun : startNativeThread eng i w s = Res.ret ()
        { (w.logCall (CFn.new_php_thread w.phpThreads[i].threadIndex true)) with
          nativeWorkers := w.phpThreads[i].threadIndex :: w.nativeWorkers } s := by
      unfold startNativeThread
      rw [hget]
      simp [hall, World.logCall]
    obtain ⟨w', h1, h2, h3⟩ := ih
      { (w.logCall (CFn.new_php_thread w.phpThreads[i].threadIndex true)) with
        nativeWorkers := w.phpThreads[i].threadIndex :: w.nativeWorkers } s
      (fun j hj => hl j (List.mem_cons_of_mem _ hj))
    refine ⟨w', ?_, h2, h3⟩
    simp only [forEach, hrun]
    exact h1

/-- C1: when `initPHPThreads(N)` returns without error, the pool holds exactly
`N` workers, the one at position `i` is the Inactive worker with index `i`, so
all are Inactive, and the state of the main thread is Ready. It does return
without error when the bootstrap and every thread start succeed and the native
main thread is scheduled to signal readiness. -/
theorem initPHPThreads_success (eng : Engine) (P : Params) (N : Nat) (w : World)
    (sched : List Event) :
    (∀ w' rest, initPHPThreads eng P (N : Int) w sched = Res.ret none w' rest →
      w'.phpThreads.length = N ∧
      (∀ i, i < N → w'.phpThreads[i]? = some (inactiveThread i)) ∧
      (∀ t ∈ w'.phpThreads, t.state.currentState = stateInactive) ∧
      w'.mainState = some stateReady) ∧
    (eng.frankenphp_new_main_thread w.calls (cInt (N : Int)) = 0 →
      (∀ calls i, eng.frankenphp_new_php_thread calls i = true) →
      ∃ w', initPHPThreads eng P (N : Int) w (Event.mainThread :: sched)
        = Res.ret none w' sched) := by
  have hneg : ¬ ((N : Int) < 0) := by omega
  constructor
  · intro w' rest h
    unfold initPHPThreads at h
    dsimp only at h
    rw [if_neg hneg] at h
    simp only [Int.toNat_ofNat] at h
    cases hstart : phpMainThread.start eng P
        { w with mainThread := some (newMainThread (N : Int)),
                 phpThreads := allocThreads N } sched with
    | ret err w2 s2 =>
      rw [hstart] at h
      cases err with
      | some e => cases h
      | none =>
        obtain ⟨hp2, hm2⟩ := start_ret_none eng P N _ sched w2 s2 rfl hstart
        dsimp only at h
        have hf := forEach_world_inv
          (fun v => v.phpThreads = allocThreads N ∧ v.mainState = some stateReady)
          (startNativeThread eng)
          (fun i v s hv => ⟨(startNativeThread_frame eng i v s).1.trans hv.1,
            (startNativeThread_frame eng i v s).2.trans hv.2⟩)
          (List.range w2.phpThreads.length) w2 s2 ⟨hp2, hm2⟩
        cases h3 : forEach (startNativeThread eng) (List.range w2.phpThreads.length) w2 s2 with
        | ret a w3 s3 =>
          rw [h3] at h hf
          dsimp only at h
          have hwait := forEach_waitInactive_ret w3 s3
            (by
              intro t ht
              rw [show w3.phpThreads = allocThreads N from hf.1] at ht
              exact ((allocThreads_spec N).2.2 t ht).1)
            (List.range w3.phpThreads.length) (fun i hi => List.mem_range.mp hi)
          rw [hwait] at h
          injection h with _ hw _
          subst hw
          have hp3 : w3.phpThreads = allocThreads N := hf.1
          refine ⟨by rw [hp3]; exact (allocThreads_spec N).1, ?_, ?_, hf.2⟩
          · intro i hi
            rw [hp3]
            exact (allocThreads_spec N).2.1 i hi
          · intro t ht
            rw [hp3] at ht
            exact ((allocThreads_spec N).2.2 t ht).1
        | panicked msg w3 => rw [h3] at h; cases h
        | blocked w3 => rw [h3] at h; cases h
    | panicked msg w2 => rw [hstart] at h; cases h
    | blocked w2 => rw [hstart] at h; cases h
  · intro hboot hthreads
    have hstart := start_returns eng P
      { w with mainThread := some (newMainThread (N : Int)), phpThreads := allocThreads N }
      (newMainThread (N : Int)) sched rfl rfl hboot
    obtain ⟨w2, hs2, hp2'⟩ := hstart
    have hp2 : w2.phpThreads = allocThreads N := hp2'
    obtain ⟨w3, h3, hp3, _⟩ := forEach_start_ret eng hthreads (List.range w2.phpThreads.length)
      w2 sched (fun i hi => List.mem_range.mp hi)
    refine ⟨w3, ?_⟩
    unfold initPHPThreads
    dsimp only
    rw [if_neg hneg]
    simp only [Int.toNat_ofNat]
    rw [hs2]
    dsimp only
    rw [h3]
    dsimp only
    rw [forEach_waitInactive_ret w3 sched
      (by
        intro t ht
        rw [hp3, hp2] at ht
        exact ((allocThreads_spec N).2.2 t ht).1)
      (List.range w3.phpThreads.length) (fun i hi => List.mem_range.mp hi)]

/-- C1 at a concrete run: with the example engine, four workers and the native
main thread scheduled once, `initPHPThreads` returns without error. -/
theorem initPHPThreads_success_witness :
    (initPHPThreads exampleEngine exampleParams 4 World.fresh [Event.mainThread]).returned
      = true ∧
    (initPHPThreads exampleEngine exampleParams 4 World.fresh
      [Event.mainThread]).world.phpThreads.length = 4 ∧
    (∀ t ∈ (initPHPThreads exampleEngine exampleParams 4 World.fresh
      [Event.mainThread]).world.phpThreads, t.state.currentState = stateInactive) ∧
    (initPHPThreads exampleEngine exampleParams 4 World.fresh
      [Event.mainThread]).world.mainState = some stateReady :=
  ⟨rfl,
   ((initPHPThreads_success exampleEngine exampleParams 4 World.fresh [Event.mainThread]).1
      _ _ rfl).1,
   ((initPHPThreads_success exampleEngine exampleParams 4 World.fresh [Event.mainThread]).1
      _ _ rfl).2.2.1,
   ((initPHPThreads_success exampleEngine exampleParams 4 World.fresh [Event.mainThread]).1
      _ _ rfl).2.2.2⟩

/-- While no native main thread is alive, no scheduled step changes the main
thread or brings a native main thread to life. -/
theorem envStep_main_idle (e : Event) (w : World)
    (h : w.nativeMain = NativeMain.notStarted ∨ w.nativeMain = NativeMain.exited) :
    (envStep e w).mainState = w.mainState ∧ (envStep e w).nativeMain = w.nativeMain := by
  cases e with
  | mainThread =>
    rcases h with h | h <;> simp [envStep, nativeMainStep, h]
  | worker i =>
    simp only [envStep, nativeWorkerStep]
    split <;> exact ⟨rfl, rfl⟩
  | release i => exact ⟨rfl, rfl⟩

/-- The same across a list of scheduled steps. -/
theorem envSteps_main_idle (es : List Event) :
    ∀ w : World, (w.nativeMain = NativeMain.notStarted ∨ w.nativeMain = NativeMain.exited) →
      (envSteps es w).mainState = w.mainState := by
  induction es with
  | nil => intro w _; rfl
  | cons e es ih =>
    intro w h
    have he := envStep_main_idle e w h
    have := ih (envStep e w) (by rw [he.2]; exact h)
    simp only [envSteps, List.foldl_cons] at this ⊢
    rw [this, he.1]

/-- C6 as amended: when `frankenphp_new_main_thread` reports failure,
`initPHPThreads(N)` returns `MainThreadCreationError` at once. The state of the
main thread is still Uninitialized and, no native main thread being alive,
never becomes Ready; no native thread was started, no string was interned and
both caches are empty. The `N` Inactive workers allocated before the bootstrap
are still in `phpThreads`. -/
theorem initPHPThreads_bootstrap_fails (eng : Engine) (P : Params) (N : Nat) (w : World)
    (sched : List Event)
    (hfail : eng.frankenphp_new_main_thread w.calls (cInt (N : Int)) ≠ 0) :
    ∃ w', initPHPThreads eng P (N : Int) w sched
        = Res.ret (some GoError.MainThreadCreationError) w' sched ∧
      w'.mainState = some stateUninitialized ∧
      ((w.nativeMain = NativeMain.notStarted ∨ w.nativeMain = NativeMain.exited) →
        ∀ es, (envSteps es w').mainState ≠ some stateReady) ∧
      w'.nativeWorkers = w.nativeWorkers ∧
      w'.calls = w.calls ++ [⟨CFn.new_main_thread (cInt (N : Int))
          (eng.frankenphp_new_main_thread w.calls (cInt (N : Int))),
        allocThreads N, some stateUninitialized⟩] ∧
      (∀ key, w'.commonHeader key = none ∧ w'.knownServerKey key = none) ∧
      w'.phpThreads = allocThreads N := by
  have hneg : ¬ ((N : Int) < 0) := by omega
  have hstart : phpMainThread.start eng P
      { w with mainThread := some (newMainThread (N : Int)), phpThreads := allocThreads N }
      sched = Res.ret (some GoError.MainThreadCreationError)
        (World.logCall
          { w with mainThread := some (newMainThread (N : Int)), phpThreads := allocThreads N }
          (CFn.new_main_thread (cInt (N : Int))
            (eng.frankenphp_new_main_thread w.calls (cInt (N : Int))))) sched := by
    unfold phpMainThread.start
    dsimp only
    exact if_pos hfail
  have hrun : initPHPThreads eng P (N : Int) w sched
      = Res.ret (some GoError.MainThreadCreationError)
        (World.logCall
          { w with mainThread := some (newMainThread (N : Int)), phpThreads := allocThreads N }
          (CFn.new_main_thread (cInt (N : Int))
            (eng.frankenphp_new_main_thread w.calls (cInt (N : Int))))) sched := by
    unfold initPHPThreads
    dsimp only
    rw [if_neg hneg]
    simp only [Int.toNat_ofNat]
    rw [hstart]
  refine ⟨_, hrun, rfl, ?_, rfl, rfl, fun key => ⟨rfl, rfl⟩, rfl⟩
  intro hidle es
  have hkeep := envSteps_main_idle es
    (World.logCall
      { w with mainThread := some (newMainThread (N : Int)), phpThreads := allocThreads N }
      (CFn.new_main_thread (cInt (N : Int))
        (eng.frankenphp_new_main_thread w.calls (cInt (N : Int))))) hidle
  rw [hkeep]
  simp [World.mainState, World.logCall, newMainThread, newThreadState]

/-- C6 as amended, at a concrete run: the failing engine, two workers. -/
theorem initPHPThreads_bootstrap_fails_witness :
    ∃ w', initPHPThreads failingEngine exampleParams 2 World.fresh []
        = Res.ret (some GoError.MainThreadCreationError) w' [] ∧
      w'.mainState = some stateUninitialized ∧
      ((World.fresh.nativeMain = NativeMain.notStarted ∨
          World.fresh.nativeMain = NativeMain.exited) →
        ∀ es, (envSteps es w').mainState ≠ some stateReady) ∧
      w'.nativeWorkers = World.fresh.nativeWorkers ∧
      w'.calls = World.fresh.calls ++ [⟨CFn.new_main_thread (cInt ((2 : Nat) : Int))
          (failingEngine.frankenphp_new_main_thread World.fresh.calls (cInt ((2 : Nat) : Int))),
        allocThreads 2, some stateUninitialized⟩] ∧
      (∀ key, w'.commonHeader key = none ∧ w'.knownServerKey key = none) ∧
      w'.phpThreads = allocThreads 2 :=
  initPHPThreads_bootstrap_fails failingEngine exampleParams 2 World.fresh [] (by decide)

/-- C6 refuted: with the failing engine `initPHPThreads(2)` returns the error,
and the pool is left usable: a following `getInactivePHPThread` returns
worker 0. -/
theorem initPHPThreads_failure_leaves_pool_counterexample :
    failingEngine.frankenphp_new_main_thread World.fresh.calls (cInt 2) ≠ 0 ∧
    (initPHPThreads failingEngine exampleParams 2 World.fresh []).returned = true ∧
    getInactivePHPThread (initPHPThreads failingEngine exampleParams 2 World.fresh []).world
      = Except.ok (inactiveThread 0) := by
  refine ⟨by decide, rfl, rfl⟩

/-! ### The caches and the order of foreign calls (C8, C7) -/

/-- A scheduled step makes no foreign call. -/
theorem envStep_calls (e : Event) (w : World) : (envStep e w).calls = w.calls := by
  cases e with
  | mainThread =>
    simp only [envStep, nativeMainStep]
    cases w.nativeMain <;>
      simp [go_frankenphp_main_thread_is_ready, go_frankenphp_shutdown_main_thread,
        World.modifyMain]
    split <;> rfl
  | worker i =>
    simp only [envStep, nativeWorkerStep]
    split <;> rfl
  | release i => rfl

/-- An update of the main thread, read back. -/
theorem modifyMain_mainThread (v : World) (f : phpMainThread → phpMainThread) :
    (v.modifyMain f).mainThread = v.mainThread.map f := rfl

/-- Lookups after the statements of `start` that make a cache empty. -/
theorem modifyMain_lookups (v : World) (key : String) :
    (v.modifyMain (fun m => { m with commonHeaders := ZendMap.empty })).commonHeader key = none ∧
    (v.modifyMain (fun m => { m with knownServerKeys := ZendMap.empty })).knownServerKey key
      = none ∧
    (v.modifyMain (fun m => { m with knownServerKeys := ZendMap.empty })).commonHeader key
      = v.commonHeader key := by
  cases hv : v.mainThread <;>
    simp [World.commonHeader, World.knownServerKey, World.modifyMain, hv, ZendMap.empty]

/-- A loop that interns one string per item and stores the handle under the key
of the item: the foreign calls it adds are all `frankenphp_init_persistent_string`
made in the main state the loop started in, and afterwards each key either is
no key of an item and has the entry it had, or has the handle a call of the
loop returned for an item with that key. -/
theorem foldl_cache_spec {ι : Type} (step : World → ι → World)
    (lookup : World → String → Option Nat) (keyOf strOf : ι → String) (good : World → Prop)
    (hstep : ∀ v a, good v → good (step v a) ∧ (step v a).mainState = v.mainState ∧
      ∃ h, (∀ key, lookup (step v a) key = if key = keyOf a then some h else lookup v key) ∧
        (step v a).calls = v.calls ++
          [⟨CFn.init_persistent_string (strOf a) (strOf a).utf8ByteSize h, v.phpThreads,
            v.mainState⟩])
    (l : List ι) :
    ∀ v, good v → ∃ new, (l.foldl step v).calls = v.calls ++ new ∧
      (∀ c ∈ new, c.mainState = v.mainState ∧
        ∃ s n h, c.fn = CFn.init_persistent_string s n h) ∧
      ∀ key, (lookup (l.foldl step v) key = lookup v key ∧ key ∉ l.map keyOf) ∨
        ∃ h a c, lookup (l.foldl step v) key = some h ∧ a ∈ l ∧ keyOf a = key ∧ c ∈ new ∧
          c.fn = CFn.init_persistent_string (strOf a) (strOf a).utf8ByteSize h := by
  induction l with
  | nil =>
    intro v _
    exact ⟨[], by simp, by simp, fun key => Or.inl ⟨rfl, by simp⟩⟩
  | cons a l ih =>
    intro v hv
    obtain ⟨hg, hms, h, hl, hc⟩ := hstep v a hv
    obtain ⟨new, hcalls, hall, hkeys⟩ := ih (step v a) hg
    refine ⟨⟨CFn.init_persistent_string (strOf a) (strOf a).utf8ByteSize h, v.phpThreads,
      v.mainState⟩ :: new, ?_, ?_, ?_⟩
    · simp only [List.foldl_cons]
      rw [hcalls, hc]
      simp
    · intro c hcmem
      rcases List.mem_cons.mp hcmem with rfl | hcmem
      · exact ⟨rfl, _, _, _, rfl⟩
      · obtain ⟨h1, h2⟩ := hall c hcmem
        exact ⟨h1.trans hms, h2⟩
    · intro key
      simp only [List.foldl_cons]
      rcases hkeys key with ⟨heq, hnot⟩ | ⟨h', a', c, hlk, ha', hk, hcm, hfn⟩
      · by_cases hka : key = keyOf a
        · right
          refine ⟨h, a, _, ?_, List.mem_cons_self _ _, hka.symm, List.mem_cons_self _ _, rfl⟩
          rw [heq, hl key, if_pos hka]
        · left
          refine ⟨?_, ?_⟩
          · rw [heq, hl key, if_neg hka]
          · simp only [List.map_cons, List.mem_cons, not_or]
            exact ⟨hka, hnot⟩
      · right
        exact ⟨h', a', c, hlk, List.mem_cons_of_mem _ ha', hk, List.mem_cons_of_mem _ hcm, hfn⟩

/-- What one iteration of the first cache loop does, when there is a main
thread. -/
theorem cacheCommonHeader_step (eng : Engine) (v : World) (a : String × String)
    (hv : v.mainThread.isSome = true) :
    (cacheCommonHeader eng v a).mainThread.isSome = true ∧
    (cacheCommonHeader eng v a).mainState = v.mainState ∧
    ∃ h, (∀ key, (cacheCommonHeader eng v a).commonHeader key =
        if key = a.1 then some h else v.commonHeader key) ∧
      (cacheCommonHeader eng v a).calls = v.calls ++
        [⟨CFn.init_persistent_string a.2 a.2.utf8ByteSize h, v.phpThreads, v.mainState⟩] := by
  obtain ⟨m, hm⟩ := Option.isSome_iff_exists.mp hv
  refine ⟨by simp [cacheCommonHeader, World.modifyMain, World.logCall, hm],
    by simp [cacheCommonHeader, World.modifyMain, World.logCall, World.mainState, hm],
    eng.frankenphp_init_persistent_string v.calls a.2 a.2.utf8ByteSize, ?_, rfl⟩
  intro key
  simp [cacheCommonHeader, World.modifyMain, World.logCall, World.commonHeader, hm,
    ZendMap.insert]

/-- What one iteration of the second cache loop does, when there is a main
thread. -/
theorem cacheServerKey_step (eng : Engine) (v : World) (a : String)
    (hv : v.mainThread.isSome = true) :
    (cacheServerKey eng v a).mainThread.isSome = true ∧
    (cacheServerKey eng v a).mainState = v.mainState ∧
    ∃ h, (∀ key, (cacheServerKey eng v a).knownServerKey key =
        if key = a then some h else v.knownServerKey key) ∧
      (cacheServerKey eng v a).calls = v.calls ++
        [⟨CFn.init_persistent_string a a.utf8ByteSize h, v.phpThreads, v.mainState⟩] := by
  obtain ⟨m, hm⟩ := Option.isSome_iff_exists.mp hv
  refine ⟨by simp [cacheServerKey, World.modifyMain, World.logCall, hm],
    by simp [cacheServerKey, World.modifyMain, World.logCall, World.mainState, hm],
    eng.frankenphp_init_persistent_string v.calls a a.utf8ByteSize, ?_, rfl⟩
  intro key
  simp [cacheServerKey, World.modifyMain, World.logCall, World.knownServerKey, hm,
    ZendMap.insert]

/-- The second cache loop leaves the first cache as it is. -/
theorem foldl_cacheServerKey_commonHeader (eng : Engine) (l : List String) (key : String) :
    ∀ v : World, (l.foldl (cacheServerKey eng) v).commonHeader key = v.commonHeader key := by
  induction l with
  | nil => intro v; rfl
  | cons a l ih =>
    intro v
    simp only [List.foldl_cons]
    rw [ih]
    cases hm : v.mainThread <;>
      simp [cacheServerKey, World.modifyMain, World.logCall, World.commonHeader, hm]

/-- What `buildCaches` leaves, when there is a main thread: the foreign calls
it adds are all `frankenphp_init_persistent_string` made in the main state it
started in; a key has an entry in `commonHeaders` exactly when it is a key of
`CommonRequestHeaders`, the entry being the handle a call returned for the
string mapped to that key; and likewise for `knownServerKeys`. -/
theorem buildCaches_spec (eng : Engine) (P : Params) (w : World)
    (hw : w.mainThread.isSome = true) :
    ∃ new, (buildCaches eng P w).calls = w.calls ++ new ∧
      (∀ c ∈ new, c.mainState = w.mainState ∧
        ∃ s n h, c.fn = CFn.init_persistent_string s n h) ∧
      (∀ key, ((buildCaches eng P w).commonHeader key = none ∧
          key ∉ P.CommonRequestHeaders.map Prod.fst) ∨
        ∃ h phpKey c, (buildCaches eng P w).commonHeader key = some h ∧
          (key, phpKey) ∈ P.CommonRequestHeaders ∧ c ∈ new ∧
          c.fn = CFn.init_persistent_string phpKey phpKey.utf8ByteSize h) ∧
      (∀ key, ((buildCaches eng P w).knownServerKey key = none ∧ key ∉ P.knownServerKeys) ∨
        ∃ h c, (buildCaches eng P w).knownServerKey key = some h ∧
          key ∈ P.knownServerKeys ∧ c ∈ new ∧
          c.fn = CFn.init_persistent_string key key.utf8ByteSize h) := by
  obtain ⟨m, hm⟩ := Option.isSome_iff_exists.mp hw
  have hg1 : (w.modifyMain
      (fun m => { m with commonHeaders := ZendMap.empty })).mainThread.isSome = true := by
    simp [World.modifyMain, hm]
  obtain ⟨new1, hc1, hall1, hk1⟩ := foldl_cache_spec (cacheCommonHeader eng)
    World.commonHeader Prod.fst Prod.snd (fun v => v.mainThread.isSome = true)
    (fun v a hv => cacheCommonHeader_step eng v a hv) P.CommonRequestHeaders _ hg1
  obtain ⟨m2, hm2⟩ : ∃ m2, (P.CommonRequestHeaders.foldl (cacheCommonHeader eng)
      (w.modifyMain (fun m => { m with commonHeaders := ZendMap.empty }))).mainThread
      = some m2 := by
    have : ∀ (l : List (String × String)) (v : World), v.mainThread.isSome = true →
        (l.foldl (cacheCommonHeader eng) v).mainThread.isSome = true := by
      intro l
      induction l with
      | nil => intro v hv; exact hv
      | cons a l ih => intro v hv; exact ih _ (cacheCommonHeader_step eng v a hv).1
    exact Option.isSome_iff_exists.mp (this _ _ hg1)
  have hg2 : ((P.CommonRequestHeaders.foldl (cacheCommonHeader eng)
      (w.modifyMain (fun m => { m with commonHeaders := ZendMap.empty }))).modifyMain
      (fun m => { m with knownServerKeys := ZendMap.empty })).mainThread.isSome = true := by
    rw [modifyMain_mainThread, hm2]
    rfl
  obtain ⟨new2, hc2, hall2, hk2⟩ := foldl_cache_spec (cacheServerKey eng)
    World.knownServerKey id id (fun v => v.mainThread.isSome = true)
    (fun v a hv => cacheServerKey_step eng v a hv) P.knownServerKeys _ hg2
  have hms1 : (w.modifyMain (fun m => { m with commonHeaders := ZendMap.empty })).mainState
      = w.mainState := by simp [World.mainState, World.modifyMain, hm]
  have hms2 : ((P.CommonRequestHeaders.foldl (cacheCommonHeader eng)
      (w.modifyMain (fun m => { m with commonHeaders := ZendMap.empty }))).modifyMain
      (fun m => { m with knownServerKeys := ZendMap.empty })).mainState = w.mainState := by
    have hf := (buildCaches_frame eng { P with knownServerKeys := [] } w).2.1
    simpa [buildCaches] using hf
  refine ⟨new1 ++ new2, ?_, ?_, ?_, ?_⟩
  · unfold buildCaches
    dsimp only
    rw [hc2]
    show (P.CommonRequestHeaders.foldl (cacheCommonHeader eng)
      (w.modifyMain (fun m => { m with commonHeaders := ZendMap.empty }))).calls ++ new2 = _
    rw [hc1]
    simp [World.modifyMain]
  · intro c hc
    rcases List.mem_append.mp hc with hc | hc
    · obtain ⟨h1, h2⟩ := hall1 c hc
      exact ⟨h1.trans hms1, h2⟩
    · obtain ⟨h1, h2⟩ := hall2 c hc
      exact ⟨h1.trans hms2, h2⟩
  · intro key
    have hsame : (buildCaches eng P w).commonHeader key =
        (P.CommonRequestHeaders.foldl (cacheCommonHeader eng)
          (w.modifyMain (fun m => { m with commonHeaders := ZendMap.empty }))).commonHeader
          key := by
      unfold buildCaches
      dsimp only
      rw [foldl_cacheServerKey_commonHeader]
      exact (modifyMain_lookups _ key).2.2
    rcases hk1 key with ⟨heq, hnot⟩ | ⟨h, a, c, hlk, ha, hk, hcm, hfn⟩
    · left
      refine ⟨?_, hnot⟩
      rw [hsame, heq]
      exact (modifyMain_lookups _ key).1
    · right
      refine ⟨h, a.2, c, hsame.trans hlk, ?_, List.mem_append_left _ hcm, hfn⟩
      rw [← hk]
      exact ha
  · intro key
    rcases hk2 key with ⟨heq, hnot⟩ | ⟨h, a, c, hlk, ha, hk, hcm, hfn⟩
    · left
      refine ⟨?_, by simpa using hnot⟩
      show (P.knownServerKeys.foldl (cacheServerKey eng) _).knownServerKey key = none
      rw [heq]
      exact (modifyMain_lookups _ key).2.1
    · right
      simp only [id] at hk
      subst hk
      exact ⟨h, c, hlk, ha, List.mem_append_right _ hcm, hfn⟩

/-- When `start` returns without error: the bootstrap returned 0, the wait for
Ready returned in some state `w3` in which the main thread is Ready and the
only new foreign call is the bootstrap, and the result is `w3` with the caches
built. -/
theorem start_ret_none_parts (eng : Engine) (P : Params) (w : World) (sched : List Event)
    (w' : World) (rest : List Event)
    (h : phpMainThread.start eng P w sched = Res.ret none w' rest) :
    ∃ m w3, w.mainThread = some m ∧ w' = buildCaches eng P w3 ∧
      w3.mainState = some stateReady ∧
      w3.calls = w.calls ++ [⟨CFn.new_main_thread (cInt m.numThreads)
        (eng.frankenphp_new_main_thread w.calls (cInt m.numThreads)), w.phpThreads,
        w.mainState⟩] := by
  unfold phpMainThread.start at h
  split at h
  · cases h
  · rename_i m hm
    dsimp only at h
    split at h
    · cases h
    · split at h
      · rename_i a w3 s3 hr
        injection h with _ hw hs
        have hcond := waitForMain_ret_cond _ _ _ _ _ hr
        have hinv := waitForMain_world_inv
          (fun v => v.calls = w.calls ++ [⟨CFn.new_main_thread (cInt m.numThreads)
            (eng.frankenphp_new_main_thread w.calls (cInt m.numThreads)), w.phpThreads,
            w.mainState⟩])
          (fun e v hv => (envStep_calls e v).trans hv) stateReady _ sched
          (show ({ (w.logCall (CFn.new_main_thread (cInt m.numThreads)
              (eng.frankenphp_new_main_thread w.calls (cInt m.numThreads)))) with
            nativeMain := NativeMain.booting } : World).calls = _ from rfl)
        rw [hr] at hinv
        exact ⟨m, w3, hm, hw.symm, hcond, hinv⟩
      · cases h
      · cases h

/-- C8: after `start` succeeds, a lookup in `commonHeaders` finds an entry
exactly for the keys of `CommonRequestHeaders`, and a lookup in
`knownServerKeys` exactly for the elements of `knownServerKeys`; the entry
found is the handle that a call of `frankenphp_init_persistent_string` made by
this run of `start` returned for the string of that key. A lookup is a pure
read of the state, so repeating it gives the same handle, and a key outside
the fixed set has no entry. -/
theorem start_builds_symbol_cache (eng : Engine) (P : Params) (w : World) (sched : List Event)
    (w' : World) (rest : List Event)
    (h : phpMainThread.start eng P w sched = Res.ret none w' rest) :
    ∃ new, w'.calls = w.calls ++ new ∧
      (∀ key, (w'.commonHeader key).isSome = true ↔
        key ∈ P.CommonRequestHeaders.map Prod.fst) ∧
      (∀ key handle, w'.commonHeader key = some handle →
        ∃ phpKey c, (key, phpKey) ∈ P.CommonRequestHeaders ∧ c ∈ new ∧
          c.fn = CFn.init_persistent_string phpKey phpKey.utf8ByteSize handle) ∧
      (∀ key, (w'.knownServerKey key).isSome = true ↔ key ∈ P.knownServerKeys) ∧
      (∀ key handle, w'.knownServerKey key = some handle →
        ∃ c, c ∈ new ∧ c.fn = CFn.init_persistent_string key key.utf8ByteSize handle) := by
  obtain ⟨m, w3, hm, hw', hready, hcalls⟩ := start_ret_none_parts eng P w sched w' rest h
  have hsome : w3.mainThread.isSome = true := by
    cases h3 : w3.mainThread with
    | none => simp [World.mainState, h3] at hready
    | some _ => rfl
  obtain ⟨newb, hcb, _, hk1, hk2⟩ := buildCaches_spec eng P w3 hsome
  subst hw'
  obtain ⟨boot, hboot⟩ : ∃ boot, w3.calls = w.calls ++ [boot] := ⟨_, hcalls⟩
  refine ⟨boot :: newb, ?_, ?_, ?_, ?_, ?_⟩
  · rw [hcb, hboot]
    simp
  · intro key
    rcases hk1 key with ⟨hnone, hnot⟩ | ⟨hd, phpKey, c, hlk, hmem, _, _⟩
    · simp [hnone, hnot]
    · simp only [hlk, Option.isSome_some, true_iff]
      exact List.mem_map.mpr ⟨(key, phpKey), hmem, rfl⟩
  · intro key handle hlook
    rcases hk1 key with ⟨hnone, _⟩ | ⟨hd, phpKey, c, hlk, hmem, hc, hfn⟩
    · rw [hnone] at hlook; cases hlook
    · rw [hlk] at hlook
      injection hlook with hlook
      subst hlook
      exact ⟨phpKey, c, hmem, List.mem_cons_of_mem _ hc, hfn⟩
  · intro key
    rcases hk2 key with ⟨hnone, hnot⟩ | ⟨hd, c, hlk, hmem, _, _⟩
    · simp [hnone, hnot]
    · simp [hlk, hmem]
  · intro key handle hlook
    rcases hk2 key with ⟨hnone, _⟩ | ⟨hd, c, hlk, hmem, hc, hfn⟩
    · rw [hnone] at hlook; cases hlook
    · rw [hlk] at hlook
      injection hlook with hlook
      subst hlook
      exact ⟨c, List.mem_cons_of_mem _ hc, hfn⟩

/-- C8 at a concrete run: the keys "accept" and "user-agent" are cached, the
key "host" is not. -/
theorem start_builds_symbol_cache_witness :
    (phpMainThread.start exampleEngine exampleParams
      { World.fresh with mainThread := some (newMainThread 0) }
      [Event.mainThread]).world.commonHeader "accept" = some 1 ∧
    (phpMainThread.start exampleEngine exampleParams
      { World.fresh with mainThread := some (newMainThread 0) }
      [Event.mainThread]).world.commonHeader "user-agent" = some 2 ∧
    (phpMainThread.start exampleEngine exampleParams
      { World.fresh with mainThread := some (newMainThread 0) }
      [Event.mainThread]).world.commonHeader "host" = none ∧
    ((phpMainThread.start exampleEngine exampleParams
      { World.fresh with mainThread := some (newMainThread 0) }
      [Event.mainThread]).world.knownServerKey "SERVER_PROTOCOL").isSome = true ∧
    ∃ new, (phpMainThread.start exampleEngine exampleParams
        { World.fresh with mainThread := some (newMainThread 0) }
        [Event.mainThread]).world.calls = [] ++ new ∧
      ∀ key, ((phpMainThread.start exampleEngine exampleParams
          { World.fresh with mainThread := some (newMainThread 0) }
          [Event.mainThread]).world.commonHeader key).isSome = true ↔
        key ∈ exampleParams.CommonRequestHeaders.map Prod.fst :=
  ⟨rfl, rfl, rfl, rfl,
   (start_builds_symbol_cache exampleEngine exampleParams
      { World.fresh with mainThread := some (newMainThread 0) } [Event.mainThread] _ _ rfl).imp
      (fun _ hx => ⟨hx.1, hx.2.1⟩)⟩

/-- The foreign calls of `start`, however it ends: first the bootstrap, made
with the pool and main state `start` was entered with, then only calls that
intern a string, each made with the main thread Ready. -/
theorem start_calls (eng : Engine) (P : Params) (w : World) (sched : List Event)
    (m : phpMainThread) (hm : w.mainThread = some m) :
    ∃ new, (phpMainThread.start eng P w sched).world.calls = w.calls ++
        (⟨CFn.new_main_thread (cInt m.numThreads)
          (eng.frankenphp_new_main_thread w.calls (cInt m.numThreads)), w.phpThreads,
          w.mainState⟩ :: new) ∧
      ∀ c ∈ new, c.afterBootstrap := by
  have hinv := waitForMain_world_inv
    (fun v => v.calls = w.calls ++ [⟨CFn.new_main_thread (cInt m.numThreads)
      (eng.frankenphp_new_main_thread w.calls (cInt m.numThreads)), w.phpThreads,
      w.mainState⟩])
    (fun e v hv => (envStep_calls e v).trans hv) stateReady
    { (w.logCall (CFn.new_main_thread (cInt m.numThreads)
        (eng.frankenphp_new_main_thread w.calls (cInt m.numThreads)))) with
      nativeMain := NativeMain.booting } sched rfl
  unfold phpMainThread.start
  rw [hm]
  dsimp only
  split
  · exact ⟨[], rfl, by simp⟩
  · split
    · rename_i a w3 s3 hr
      rw [hr] at hinv
      have hready := waitForMain_ret_cond _ _ _ _ _ hr
      have hsome : w3.mainThread.isSome = true := by
        cases h3 : w3.mainThread with
        | none => simp [World.mainState, h3] at hready
        | some _ => rfl
      obtain ⟨newb, hcb, hall, _, _⟩ := buildCaches_spec eng P w3 hsome
      refine ⟨newb, ?_, ?_⟩
      · show (buildCaches eng P w3).calls = _
        rw [hcb, show w3.calls = _ from hinv]
        simp
      · intro c hc
        obtain ⟨hst, s, n, h, hfn⟩ := hall c hc
        exact ⟨fun n r => by rw [hfn]; simp, fun _ _ _ _ => hst.trans hready⟩
    · rename_i msg w3 hr
      rw [hr] at hinv
      exact ⟨[], hinv, by simp⟩
    · rename_i w3 hr
      rw [hr] at hinv
      exact ⟨[], hinv, by simp⟩

/-- Starting a native thread adds at most a call of `frankenphp_new_php_thread`
to the log. -/
theorem startNativeThread_calls (eng : Engine) (i : Nat) (w : World) (s : List Event) :
    (startNativeThread eng i w s).world.calls = w.calls ∨
    ∃ idx r, (startNativeThread eng i w s).world.calls =
      w.calls ++ [⟨CFn.new_php_thread idx r, w.phpThreads, w.mainState⟩] := by
  unfold startNativeThread
  split
  · exact Or.inl rfl
  · dsimp only
    split <;> exact Or.inr ⟨_, _, rfl⟩

/-- C7: in every execution of `initPHPThreads(N)`, however it ends, the first
foreign call is the bootstrap `frankenphp_new_main_thread`, and at that moment
the pool holds all `N` workers, the one at position `i` being the Inactive
worker with index `i`; no second bootstrap follows; and every call that
interns a string for the caches is made later, with the main thread Ready. -/
theorem initPHPThreads_call_order (eng : Engine) (P : Params) (N : Nat) (w : World)
    (sched : List Event) :
    ∃ boot new, (initPHPThreads eng P (N : Int) w sched).world.calls
        = w.calls ++ (boot :: new) ∧
      boot.fn = CFn.new_main_thread (cInt (N : Int))
        (eng.frankenphp_new_main_thread w.calls (cInt (N : Int))) ∧
      boot.pool.length = N ∧
      (∀ i, i < N → boot.pool[i]? = some (inactiveThread i)) ∧
      (∀ t ∈ boot.pool, t.state.currentState = stateInactive) ∧
      ∀ c ∈ new, c.afterBootstrap := by
  have hneg : ¬ ((N : Int) < 0) := by omega
  obtain ⟨news, hcs, hall⟩ := start_calls eng P
    { w with mainThread := some (newMainThread (N : Int)), phpThreads := allocThreads N }
    sched (newMainThread (N : Int)) rfl
  refine ⟨⟨CFn.new_main_thread (cInt (N : Int))
      (eng.frankenphp_new_main_thread w.calls (cInt (N : Int))), allocThreads N,
      some stateUninitialized⟩, ?_⟩
  have hstart0 : World.bootedFrom w.calls ⟨CFn.new_main_thread (cInt (N : Int))
      (eng.frankenphp_new_main_thread w.calls (cInt (N : Int))), allocThreads N,
      some stateUninitialized⟩
      (phpMainThread.start eng P
        { w with mainThread := some (newMainThread (N : Int)), phpThreads := allocThreads N }
        sched).world := ⟨news, hcs, hall⟩
  have hgoal : World.bootedFrom w.calls ⟨CFn.new_main_thread (cInt (N : Int))
      (eng.frankenphp_new_main_thread w.calls (cInt (N : Int))), allocThreads N,
      some stateUninitialized⟩ (initPHPThreads eng P (N : Int) w sched).world := by
    have hI : ∀ (v : World) (i : Nat) (s : List Event),
        World.bootedFrom w.calls ⟨CFn.new_main_thread (cInt (N : Int))
          (eng.frankenphp_new_main_thread w.calls (cInt (N : Int))), allocThreads N,
          some stateUninitialized⟩ v →
        World.bootedFrom w.calls ⟨CFn.new_main_thread (cInt (N : Int))
          (eng.frankenphp_new_main_thread w.calls (cInt (N : Int))), allocThreads N,
          some stateUninitialized⟩ (startNativeThread eng i v s).world := by
      intro v i s ⟨new, hv, hvall⟩
      rcases startNativeThread_calls eng i v s with h | ⟨idx, r, h⟩
      · exact ⟨new, h.trans hv, hvall⟩
      · refine ⟨new ++ [⟨CFn.new_php_thread idx r, v.phpThreads, v.mainState⟩], ?_, ?_⟩
        · rw [h, hv]
          simp
        · intro c hc
          rcases List.mem_append.mp hc with hc | hc
          · exact hvall c hc
          · simp only [List.mem_singleton] at hc
            subst hc
            exact ⟨fun n r => by simp, fun s n h hfn => by simp at hfn⟩
    have hE : ∀ (e : Event) (v : World),
        World.bootedFrom w.calls ⟨CFn.new_main_thread (cInt (N : Int))
          (eng.frankenphp_new_main_thread w.calls (cInt (N : Int))), allocThreads N,
          some stateUninitialized⟩ v →
        World.bootedFrom w.calls ⟨CFn.new_main_thread (cInt (N : Int))
          (eng.frankenphp_new_main_thread w.calls (cInt (N : Int))), allocThreads N,
          some stateUninitialized⟩ (envStep e v) := by
      intro e v ⟨new, hv, hvall⟩
      exact ⟨new, (envStep_calls e v).trans hv, hvall⟩
    unfold initPHPThreads
    dsimp only
    rw [if_neg hneg]
    simp only [Int.toNat_ofNat]
    cases hstart : phpMainThread.start eng P
        { w with mainThread := some (newMainThread (N : Int)),
                 phpThreads := allocThreads N } sched with
    | ret err w2 s2 =>
      rw [hstart] at hstart0
      cases err with
      | some e => exact hstart0
      | none =>
        dsimp only
        have h3 := forEach_world_inv _ (startNativeThread eng) (fun i v s hv => hI v i s hv)
          (List.range w2.phpThreads.length) w2 s2 hstart0
        cases hf : forEach (startNativeThread eng) (List.range w2.phpThreads.length) w2 s2 with
        | ret a w3 s3 =>
          rw [hf] at h3
          dsimp only
          have h4 := forEach_world_inv _ (fun i => waitForThread i stateInactive)
            (fun i v s hv => await_world_inv _ hE _ s v hv)
            (List.range w3.phpThreads.length) w3 s3 h3
          cases hg : forEach (fun i => waitForThread i stateInactive)
              (List.range w3.phpThreads.length) w3 s3 with
          | ret b w4 s4 => rw [hg] at h4; exact h4
          | panicked msg w4 => rw [hg] at h4; exact h4
          | blocked w4 => rw [hg] at h4; exact h4
        | panicked msg w3 => rw [hf] at h3; exact h3
        | blocked w3 => rw [hf] at h3; exact h3
    | panicked msg w2 => rw [hstart] at hstart0; exact hstart0
    | blocked w2 => rw [hstart] at hstart0; exact hstart0
  obtain ⟨new, h1, h2⟩ := hgoal
  exact ⟨new, h1, rfl, (allocThreads_spec N).1, (allocThreads_spec N).2.1,
    fun t ht => ((allocThreads_spec N).2.2 t ht).1, h2⟩

/-- C7 at a concrete run: two workers, the example engine. -/
theorem initPHPThreads_call_order_witness :
    ∃ boot new, (initPHPThreads exampleEngine exampleParams ((2 : Nat) : Int) World.fresh
        [Event.mainThread]).world.calls = World.fresh.calls ++ (boot :: new) ∧
      boot.pool.length = 2 ∧ ∀ c ∈ new, c.afterBootstrap := by
  obtain ⟨boot, new, h1, _, h3, _, _, h6⟩ :=
    initPHPThreads_call_order exampleEngine exampleParams 2 World.fresh [Event.mainThread]
  exact ⟨boot, new, h1, h3, h6⟩

/-! ### `drainPHPThreads` as a whole (C4) -/

/-- A loop that returns: an invariant `I` of the bodies holds afterwards, what
each body establishes for its own index holds afterwards for every index of
the loop, provided later bodies keep it. -/
theorem forEach_ret_all (body : Nat → World → List Event → Res Unit) (I : World → Prop)
    (R : Nat → World → Prop)
    (hI : ∀ i w s w' s', I w → body i w s = Res.ret () w' s' → I w')
    (hR : ∀ i w s w' s', I w → body i w s = Res.ret () w' s' → R i w')
    (hkeep : ∀ i j w s w' s', I w → R j w → body i w s = Res.ret () w' s' → R j w')
    (l : List Nat) :
    ∀ (extra : List Nat) (w : World) (s : List Event) (w' : World) (s' : List Event),
      I w → (∀ j ∈ extra, R j w) → forEach body l w s = Res.ret () w' s' →
      I w' ∧ (∀ j ∈ extra, R j w') ∧ ∀ i ∈ l, R i w' := by
  induction l with
  | nil =>
    intro extra w s w' s' hw hex h
    simp only [forEach] at h
    injection h with _ hw' _
    subst hw'
    exact ⟨hw, hex, by simp⟩
  | cons i rest ih =>
    intro extra w s w' s' hw hex h
    simp only [forEach] at h
    cases hb : body i w s with
    | ret a w1 s1 =>
      rw [hb] at h
      dsimp only at h
      obtain ⟨h1, h2, h3⟩ := ih (i :: extra) w1 s1 w' s' (hI i w s w1 s1 hw hb)
        (by
          intro j hj
          rcases List.mem_cons.mp hj with rfl | hj
          · exact hR j w s w1 s1 hw hb
          · exact hkeep i j w s w1 s1 hw (hex j hj) hb)
        h
      refine ⟨h1, fun j hj => h2 j (List.mem_cons_of_mem _ hj), ?_⟩
      intro j hj
      rcases List.mem_cons.mp hj with rfl | hj
      · exact h2 j (List.mem_cons_self _ _)
      · exact h3 j hj
    | panicked msg w1 => rw [hb] at h; cases h
    | blocked w1 => rw [hb] at h; cases h

/-- An invariant of scheduled steps and of the writes of the first loop of
`drainPHPThreads` holds in the state the loop body ends in. -/
theorem shutdownThread_world_inv (P : Params) (I : World → Prop)
    (henv : ∀ e v, I v → I (envStep e v))
    (hlock : ∀ v j, I v → I (takeLock j v))
    (hreq : ∀ v j, I v → I (requestShuttingDown P j v))
    (hclose : ∀ v j, I v → I (v.modifyThread j (fun t => { t with drainChan := true })))
    (i : Nat) (w : World) (s : List Event) (h : I w) : I (shutdownThread P i w s).world := by
  have hw := await_world_inv I henv (fun v => v.lockFree i) s w h
  unfold shutdownThread
  cases hr : await (fun v => v.lockFree i) w s with
  | ret a w1 s1 =>
    rw [hr] at hw
    dsimp only
    unfold closeDrainChan
    split
    · exact hreq _ _ (hlock _ _ hw)
    · exact hclose _ _ (hreq _ _ (hlock _ _ hw))
  | panicked msg w1 => rw [hr] at hw; exact hw
  | blocked w1 => rw [hr] at hw; exact hw

/-- An invariant of scheduled steps and of the release of a lock holds in the
state the body of a goroutine of the second loop ends in. -/
theorem awaitThreadDone_world_inv (I : World → Prop)
    (henv : ∀ e v, I v → I (envStep e v))
    (hunlock : ∀ v j, I v → I (v.modifyThread j (fun t => { t with handlerMu := none })))
    (i : Nat) (w : World) (s : List Event) (h : I w) : I (awaitThreadDone i w s).world := by
  have hw := await_world_inv I henv (fun v => v.threadIs i stateDone) s w h
  unfold awaitThreadDone waitForThread
  cases hr : await (fun v => v.threadIs i stateDone) w s with
  | ret a w1 s1 =>
    rw [hr] at hw
    dsimp only
    split
    · exact hw
    · exact hunlock _ _ hw
  | panicked msg w1 => rw [hr] at hw; exact hw
  | blocked w1 => rw [hr] at hw; exact hw

/-- An invariant of scheduled steps and of every write of `drainPHPThreads`
holds in the state `drainBody` ends in. -/
theorem drainBody_world_inv (P : Params) (I : World → Prop)
    (henv : ∀ e v, I v → I (envStep e v))
    (hlock : ∀ v j, I v → I (takeLock j v))
    (hreq : ∀ v j, I v → I (requestShuttingDown P j v))
    (hclose : ∀ v j, I v → I (v.modifyThread j (fun t => { t with drainChan := true })))
    (hunlock : ∀ v j, I v → I (v.modifyThread j (fun t => { t with handlerMu := none })))
    (hmain : ∀ v f, I v → I (v.modifyMain f))
    (w : World) (s : List Event) (h : I w) : I (drainBody P w s).world := by
  have h1 := forEach_world_inv I (shutdownThread P)
    (fun i v s hv => shutdownThread_world_inv P I henv hlock hreq hclose i v s hv)
    (List.range w.phpThreads.length) w s h
  unfold drainBody drainLockPhase
  cases hr1 : forEach (shutdownThread P) (List.range w.phpThreads.length) w s with
  | ret a w1 s1 =>
    rw [hr1] at h1
    dsimp only
    have h2 : I (closeMainDone w1 s1).world := by
      unfold closeMainDone
      split
      · exact h1
      · split
        · exact h1
        · exact hmain _ _ h1
    cases hr2 : closeMainDone w1 s1 with
    | ret b w2 s2 =>
      rw [hr2] at h2
      dsimp only
      have h3 := forEach_world_inv I awaitThreadDone
        (fun i v s hv => awaitThreadDone_world_inv I henv hunlock i v s hv)
        (List.range w2.phpThreads.length) w2 s2 h2
      cases hr3 : forEach awaitThreadDone (List.range w2.phpThreads.length) w2 s2 with
      | ret c w3 s3 =>
        rw [hr3] at h3
        dsimp only
        exact waitForMain_world_inv I henv stateDone _ s3 (hmain _ _ h3)
      | panicked msg w3 => rw [hr3] at h3; exact h3
      | blocked w3 => rw [hr3] at h3; exact h3
    | panicked msg w2 => rw [hr2] at h2; exact h2
    | blocked w2 => rw [hr2] at h2; exact h2
  | panicked msg w1 => rw [hr1] at h1; exact h1
  | blocked w1 => rw [hr1] at h1; exact h1

/-- No scheduled step changes a joined worker. -/
theorem joined_stable (t t' : phpThread) (h : stepRel t t') (hQ : t.joined) : t'.joined := by
  rcases h with rfl | ⟨_, rfl⟩ | ⟨hc, _⟩
  · exact hQ
  · exact ⟨hQ.1, rfl⟩
  · rw [hQ.1] at hc; cases hc

/-- When the body of a goroutine of the second loop returns for worker `i`, the
worker is there and is joined. -/
theorem awaitThreadDone_ret (i : Nat) (w : World) (s : List Event) (w' : World)
    (s' : List Event) (h : awaitThreadDone i w s = Res.ret () w' s') :
    ∃ t, w'.phpThreads[i]? = some t ∧ t.joined := by
  unfold awaitThreadDone waitForThread at h
  cases hr : await (fun v => v.threadIs i stateDone) w s with
  | ret a w1 s1 =>
    rw [hr] at h
    dsimp only at h
    have hcond := await_ret_cond _ s w w1 s1 hr
    simp only [World.threadIs] at hcond
    split at h
    · cases h
    · injection h with _ hw _
      subst hw
      cases h1 : w1.phpThreads[i]? with
      | none => simp [h1] at hcond
      | some t =>
        simp only [h1, threadState.is, decide_eq_true_eq] at hcond
        refine ⟨{ t with handlerMu := none }, ?_, rfl, hcond⟩
        simp [modifyThread_getElem, h1]
  | panicked msg w1 => rw [hr] at h; cases h
  | blocked w1 => rw [hr] at h; cases h

/-- A property of workers that no scheduled step can break stays true of the
worker present at position `j` across a scheduled step. -/
theorem envStep_threadSome (Q : phpThread → Prop)
    (hQ : ∀ t t', stepRel t t' → Q t → Q t') (e : Event) (w : World) (j : Nat)
    (h : ∃ t, w.phpThreads[j]? = some t ∧ Q t) :
    ∃ t, (envStep e w).phpThreads[j]? = some t ∧ Q t := by
  obtain ⟨t, ht, hq⟩ := h
  obtain ⟨g, hg, hget⟩ := envStep_thread e w j
  exact ⟨g t, by rw [hget, ht]; rfl, hQ t (g t) (hg t) hq⟩

/-- An update that keeps `Q` keeps it true of the worker present at position
`i`. -/
theorem modifyThread_threadSome (Q : phpThread → Prop) (f : phpThread → phpThread)
    (hf : ∀ t, Q t → Q (f t)) (w : World) (i j : Nat)
    (h : ∃ t, w.phpThreads[i]? = some t ∧ Q t) :
    ∃ t, (w.modifyThread j f).phpThreads[i]? = some t ∧ Q t := by
  obtain ⟨t, ht, hq⟩ := h
  by_cases hji : j = i
  · exact ⟨f t, by simp [modifyThread_getElem, ht, hji], hf t hq⟩
  · exact ⟨t, by simp [modifyThread_getElem, ht, hji], hq⟩

/-- No scheduled step changes the index of a worker. -/
theorem threadIndex_stable (k : Nat) (t t' : phpThread) (h : stepRel t t')
    (hQ : t.threadIndex = k) : t'.threadIndex = k := by
  rcases h with rfl | ⟨_, rfl⟩ | ⟨_, rfl⟩ <;> exact hQ

/-- What holds when `drainPHPThreads` returns: the main thread is Done and
`phpThreads` is nil; just before the pool is dropped it has the size it had at
the start, every worker keeps its position and index and is Done; and the run
went through a state in which every worker was Done and the main thread
ShuttingDown. -/
theorem drainPHPThreads_ret_spec (P : Params) (w : World) (sched : List Event) (w' : World)
    (rest : List Event) (h : drainPHPThreads P w sched = Res.ret () w' rest) :
    w'.mainState = some stateDone ∧ w'.phpThreads = [] ∧
    ∃ (w3 : World) (s3 : List Event) (w5 : World), drainBody P w sched = Res.ret () w5 rest ∧
      w' = { w5 with phpThreads := [] } ∧
      (∀ t ∈ w3.phpThreads, t.state.currentState = stateDone) ∧
      (w3.modifyMain (fun m => { m with state := m.state.set stateShuttingDown })).mainState
        = some stateShuttingDown ∧
      waitForMain stateDone
        (w3.modifyMain (fun m => { m with state := m.state.set stateShuttingDown })) s3
        = Res.ret () w5 rest ∧
      w5.mainState = some stateDone ∧
      w5.phpThreads.length = w.phpThreads.length ∧
      (∀ t ∈ w5.phpThreads, t.state.currentState = stateDone) ∧
      ∀ (i : Nat) (t : phpThread), w.phpThreads[i]? = some t →
        ∃ t', w5.phpThreads[i]? = some t' ∧ t'.threadIndex = t.threadIndex ∧
          t'.state.currentState = stateDone := by
  unfold drainPHPThreads at h
  cases hb : drainBody P w sched with
  | panicked msg w5 => rw [hb] at h; cases h
  | blocked w5 => rw [hb] at h; cases h
  | ret a w5 s5 =>
    rw [hb] at h
    dsimp only at h
    injection h with _ hw' hs'
    subst hs'
    -- the length of the pool and the index of each worker are kept
    have hlen : w5.phpThreads.length = w.phpThreads.length := by
      have := drainBody_world_inv P (fun v => v.phpThreads.length = w.phpThreads.length)
        (fun e v hv => (envStep_length e v).trans hv)
        (fun v j hv => by rw [← hv]; exact modifyThread_length v j _)
        (fun v j hv => by rw [← hv]; exact modifyThread_length v j _)
        (fun v j hv => by rw [← hv]; exact modifyThread_length v j _)
        (fun v j hv => by rw [← hv]; exact modifyThread_length v j _)
        (fun v f hv => hv) w sched rfl
      rw [hb] at this
      exact this
    have hidx : ∀ (i : Nat) (t : phpThread), w.phpThreads[i]? = some t →
        w5.threadAll i (fun u => u.threadIndex = t.threadIndex) := by
      intro i t ht
      have := drainBody_world_inv P
        (fun v => v.threadAll i (fun u => u.threadIndex = t.threadIndex))
        (fun e v hv => envStep_threadAll _ (threadIndex_stable t.threadIndex) e v i hv)
        (fun v j hv => by
          unfold takeLock
          refine modifyThread_threadAll _ _ ?_ v i j hv
          intro u hu; exact hu)
        (fun v j hv => by
          unfold requestShuttingDown
          refine modifyThread_threadAll _ _ ?_ v i j hv
          intro u hu; exact hu)
        (fun v j hv => by
          refine modifyThread_threadAll _ _ ?_ v i j hv
          intro u hu; exact hu)
        (fun v j hv => by
          refine modifyThread_threadAll _ _ ?_ v i j hv
          intro u hu; exact hu)
        (fun v f hv => hv) w sched
        (by
          intro u hu
          rw [ht] at hu
          injection hu with hu
          rw [hu])
      rw [hb] at this
      exact this
    -- the phases of the run
    unfold drainBody drainLockPhase at hb
    cases hr1 : forEach (shutdownThread P) (List.range w.phpThreads.length) w sched with
    | panicked msg w1 => rw [hr1] at hb; cases hb
    | blocked w1 => rw [hr1] at hb; cases hb
    | ret a1 w1 s1 =>
      rw [hr1] at hb
      dsimp only at hb
      cases hr2 : closeMainDone w1 s1 with
      | panicked msg w2 => rw [hr2] at hb; cases hb
      | blocked w2 => rw [hr2] at hb; cases hb
      | ret a2 w2 s2 =>
        rw [hr2] at hb
        dsimp only at hb
        cases hr3 : forEach awaitThreadDone (List.range w2.phpThreads.length) w2 s2 with
        | panicked msg w3 => rw [hr3] at hb; cases hb
        | blocked w3 => rw [hr3] at hb; cases hb
        | ret a3 w3 s3 =>
          rw [hr3] at hb
          dsimp only at hb
          -- every worker is joined after the second loop
          have hkeepJ : ∀ (j : Nat) (i : Nat) (v : World) (s : List Event),
              (∃ t, v.phpThreads[j]? = some t ∧ t.joined) →
              ∃ t, (awaitThreadDone i v s).world.phpThreads[j]? = some t ∧ t.joined :=
            fun j i v s hv => awaitThreadDone_world_inv
              (fun u => ∃ t, u.phpThreads[j]? = some t ∧ t.joined)
              (fun e u hu => envStep_threadSome _ joined_stable e u j hu)
              (fun u k hu => modifyThread_threadSome _ _ (fun t ht => ⟨rfl, ht.2⟩) u j k hu)
              i v s hv
          have hjoin := forEach_ret_all awaitThreadDone (fun _ => True)
            (fun i v => ∃ t, v.phpThreads[i]? = some t ∧ t.joined)
            (fun _ _ _ _ _ _ _ => trivial)
            (fun i v s v' s' _ hv => awaitThreadDone_ret i v s v' s' hv)
            (fun i j v s v' s' _ hj hv => by
              have := hkeepJ j i v s hj
              rw [hv] at this
              exact this)
            (List.range w2.phpThreads.length) [] w2 s2 w3 s3 trivial (by simp) hr3
          have hlen3 : w3.phpThreads.length = w2.phpThreads.length := by
            have := forEach_world_inv (fun v => v.phpThreads.length = w2.phpThreads.length)
              awaitThreadDone
              (fun i v s hv => awaitThreadDone_world_inv _
                (fun e u hu => (envStep_length e u).trans hu)
                (fun u k hu => (modifyThread_length u k _).trans hu) i v s hv)
              (List.range w2.phpThreads.length) w2 s2 rfl
            rw [hr3] at this
            exact this
          have hall3 : ∀ i, i < w3.phpThreads.length →
              ∃ t, w3.phpThreads[i]? = some t ∧ t.joined := by
            intro i hi
            exact hjoin.2.2 i (List.mem_range.mpr (by omega))
          -- the last wait keeps the workers joined
          have hall5 : ∀ i, i < w3.phpThreads.length →
              ∃ t, w5.phpThreads[i]? = some t ∧ t.joined := by
            intro i hi
            have := waitForMain_world_inv
              (fun v => ∃ t, v.phpThreads[i]? = some t ∧ t.joined)
              (fun e u hu => envStep_threadSome _ joined_stable e u i hu) stateDone
              (w3.modifyMain (fun m => { m with state := m.state.set stateShuttingDown })) s3
              (hall3 i hi)
            rw [hb] at this
            exact this
          have hlen5 : w5.phpThreads.length = w3.phpThreads.length := by
            have := waitForMain_world_inv
              (fun v => v.phpThreads.length = w3.phpThreads.length)
              (fun e u hu => (envStep_length e u).trans hu) stateDone
              (w3.modifyMain (fun m => { m with state := m.state.set stateShuttingDown })) s3
              rfl
            rw [hb] at this
            exact this
          have hdone5 : ∀ t ∈ w5.phpThreads, t.state.currentState = stateDone := by
            intro t ht
            obtain ⟨i, hi⟩ := List.getElem?_of_mem ht
            have hlt : i < w5.phpThreads.length := by
              by_contra hge
              rw [List.getElem?_eq_none (by omega)] at hi
              cases hi
            obtain ⟨u, hu, hj⟩ := hall5 i (by omega)
            rw [hi] at hu
            injection hu with hu
            subst hu
            exact hj.2
          have hmain5 := waitForMain_ret_cond _ _ _ _ _ hb
          have hsd : (w3.modifyMain
              (fun m => { m with state := m.state.set stateShuttingDown })).mainState
              = some stateShuttingDown := by
            cases hm3 : w3.mainThread with
            | none =>
              simp [waitForMain, World.modifyMain, hm3] at hb
            | some m => simp [World.mainState, World.modifyMain, hm3, threadState.set]
          subst hw'
          refine ⟨hmain5, rfl, w3, s3, w5, rfl, rfl, ?_, hsd, hb, hmain5, hlen, hdone5, ?_⟩
          · intro t ht
            obtain ⟨i, hi⟩ := List.getElem?_of_mem ht
            have hlt : i < w3.phpThreads.length := by
              by_contra hge
              rw [List.getElem?_eq_none (by omega)] at hi
              cases hi
            obtain ⟨u, hu, hj⟩ := hall3 i hlt
            rw [hi] at hu
            injection hu with hu
            subst hu
            exact hj.2
          · intro i t ht
            have hlt : i < w.phpThreads.length := by
              by_contra hge
              rw [List.getElem?_eq_none (by omega)] at ht
              cases ht
            obtain ⟨u, hu, hj⟩ := hall5 i (by omega)
            exact ⟨u, hu, hidx i t ht u hu, hj.2⟩

/-- A loop returns when each body returns after consuming exactly the steps
`cost i` of the schedule, given a precondition `pre i` for each index that
bodies of other indices keep. Afterwards the invariant `I` holds and what each
body establishes for its index, `R i`, holds for every index of the loop. -/
theorem forEach_returns (body : Nat → World → List Event → Res Unit)
    (cost : Nat → List Event) (I : World → Prop) (pre R : Nat → World → Prop)
    (hbody : ∀ i w s, I w → pre i w →
      ∃ w', body i w (cost i ++ s) = Res.ret () w' s ∧ I w' ∧ R i w' ∧
        (∀ j, j ≠ i → pre j w → pre j w') ∧ (∀ j, j ≠ i → R j w → R j w'))
    (l : List Nat) :
    ∀ (extra : List Nat) (w : World) (s : List Event), l.Nodup → (∀ j ∈ extra, j ∉ l) →
      I w → (∀ i ∈ l, pre i w) → (∀ j ∈ extra, R j w) →
      ∃ w', forEach body l w ((l.map cost).flatten ++ s) = Res.ret () w' s ∧ I w' ∧
        (∀ i ∈ l, R i w') ∧ ∀ j ∈ extra, R j w' := by
  induction l with
  | nil =>
    intro extra w s _ _ hw _ hex
    exact ⟨w, rfl, hw, by simp, hex⟩
  | cons i rest ih =>
    intro extra w s hnd hdis hw hpre hex
    have hnd' := List.nodup_cons.mp hnd
    obtain ⟨w1, hb, hI1, hR1, hkp, hkr⟩ := hbody i w ((rest.map cost).flatten ++ s) hw
      (hpre i (List.mem_cons_self _ _))
    obtain ⟨w', hf, hI', hall, hex'⟩ := ih (i :: extra) w1 s hnd'.2
      (by
        intro j hj
        rcases List.mem_cons.mp hj with rfl | hj
        · exact hnd'.1
        · exact fun hjr => hdis j hj (List.mem_cons_of_mem _ hjr))
      hI1
      (by
        intro j hj
        exact hkp j (fun hji => hnd'.1 (hji ▸ hj)) (hpre j (List.mem_cons_of_mem _ hj)))
      (by
        intro j hj
        rcases List.mem_cons.mp hj with rfl | hj
        · exact hR1
        · exact hkr j (fun hji => hdis j hj (hji ▸ List.mem_cons_self _ _)) (hex j hj))
    refine ⟨w', ?_, hI', ?_, fun j hj => hex' j (List.mem_cons_of_mem _ hj)⟩
    · simp only [List.map_cons, List.flatten_cons, List.append_assoc, forEach]
      rw [hb]
      exact hf
    · intro j hj
      rcases List.mem_cons.mp hj with rfl | hj
      · exact hex' j (List.mem_cons_self _ _)
      · exact hall j hj

/-- While its condition does not hold, `await` lets the next scheduled step
happen. -/
theorem await_step (cond : World → Bool) (w : World) (e : Event) (es : List Event)
    (h : cond w = false) : await cond w (e :: es) = await cond (envStep e w) es := by
  simp [await, h]

/-- The request for ShuttingDown never makes a worker Done that was not. -/
theorem request_not_done (permitted : stateID → stateID → Bool) (ts : threadState)
    (h : ts.currentState ≠ stateDone) :
    (ts.requestSafeStateChange permitted stateShuttingDown).1.currentState ≠ stateDone := by
  unfold threadState.requestSafeStateChange
  split
  · simp
  · exact h

/-- The body of the first loop of `drainPHPThreads` returns at once for a worker
whose lock is free and whose drain signal is open; it leaves the worker held
by the supervisor with its drain signal closed, and touches nothing else. -/
theorem shutdownThread_returns (P : Params) (i : Nat) (w : World) (s : List Event)
    (t : phpThread) (hget : w.phpThreads[i]? = some t) (hfree : t.handlerMu = none)
    (hopen : t.drainChan = false) :
    ∃ w', shutdownThread P i w s = Res.ret () w' s ∧
      w'.mainThread = w.mainThread ∧ w'.nativeMain = w.nativeMain ∧
      w'.nativeWorkers = w.nativeWorkers ∧
      w'.phpThreads.length = w.phpThreads.length ∧
      w'.phpThreads[i]? = some { t with
        handlerMu := some LockHolder.supervisor,
        state := (t.state.requestSafeStateChange P.permitted stateShuttingDown).1,
        drainChan := true } ∧
      ∀ j, j ≠ i → w'.phpThreads[j]? = w.phpThreads[j]? := by
  have hcond : (fun v : World => v.lockFree i) w = true := by
    simp [World.lockFree, hget, hfree]
  have hclosed : (requestShuttingDown P i (takeLock i w)).drainClosed i = false := by
    simp [World.drainClosed, requestShuttingDown, takeLock, modifyThread_getElem, hget, hopen]
  refine ⟨(requestShuttingDown P i (takeLock i w)).modifyThread i
    (fun t => { t with drainChan := true }), ?_, rfl, rfl, rfl, ?_, ?_, ?_⟩
  · unfold shutdownThread
    rw [await_of_cond _ w s hcond]
    dsimp only
    unfold closeDrainChan
    rw [hclosed]
    simp
  · simp [requestShuttingDown, takeLock, modifyThread_length]
  · simp [requestShuttingDown, takeLock, modifyThread_getElem, hget]
  · intro j hj
    have hij : i ≠ j := fun h => hj h.symm
    simp [requestShuttingDown, takeLock, modifyThread_getElem, hij]

/-- The body of a goroutine of the second loop of `drainPHPThreads` returns
after one step of the native thread of its worker, when that thread runs, the
drain signal of the worker is closed and the supervisor holds its lock. -/
theorem awaitThreadDone_returns (i : Nat) (w : World) (s : List Event) (t : phpThread)
    (hget : w.phpThreads[i]? = some t) (hheld : t.handlerMu = some LockHolder.supervisor)
    (hclosed : t.drainChan = true) (hnot : t.state.currentState ≠ stateDone)
    (hrun : i ∈ w.nativeWorkers) :
    ∃ w', awaitThreadDone i w (Event.worker i :: s) = Res.ret () w' s ∧
      w'.mainThread = w.mainThread ∧ w'.nativeMain = w.nativeMain ∧
      w'.nativeWorkers = w.nativeWorkers ∧
      w'.phpThreads.length = w.phpThreads.length ∧
      w'.phpThreads[i]? = some { t with handlerMu := none, state := ⟨stateDone⟩ } ∧
      ∀ j, j ≠ i → w'.phpThreads[j]? = w.phpThreads[j]? := by
  have hstep : envStep (Event.worker i) w = w.modifyThread i (fun t =>
      if t.drainChan then { t with state := t.state.set stateDone } else t) := by
    simp [envStep, nativeWorkerStep, hrun]
  have hget1 : (envStep (Event.worker i) w).phpThreads[i]? =
      some { t with state := ⟨stateDone⟩ } := by
    rw [hstep]
    simp [modifyThread_getElem, hget, hclosed, threadState.set]
  have hc0 : (fun v : World => v.threadIs i stateDone) w = false := by
    simp [World.threadIs, hget, threadState.is, hnot]
  have hc1 : (fun v : World => v.threadIs i stateDone) (envStep (Event.worker i) w) = true := by
    simp [World.threadIs, hget1, threadState.is]
  have hlock : (envStep (Event.worker i) w).lockFree i = false := by
    simp [World.lockFree, hget1, hheld]
  refine ⟨(envStep (Event.worker i) w).modifyThread i (fun t => { t with handlerMu := none }),
    ?_, ?_, ?_, ?_, ?_, ?_, ?_⟩
  · unfold awaitThreadDone waitForThread
    rw [await_step _ w _ s hc0, await_of_cond _ _ s hc1]
    dsimp only
    rw [hlock]
    simp
  · rw [hstep]; rfl
  · rw [hstep]; rfl
  · rw [hstep]; rfl
  · rw [hstep]; simp [modifyThread_length]
  · simp [modifyThread_getElem, hget1]
  · intro j hj
    have hij : i ≠ j := fun h => hj h.symm
    rw [hstep]
    simp [modifyThread_getElem, hij]

/-- The last wait of `drainPHPThreads` returns after two steps of the native
main thread, when that thread waits inside the ready callback and the main
thread has just been set to ShuttingDown. -/
theorem waitForMain_done_returns (w : World) (m : phpMainThread) (rest : List Event)
    (hm : w.mainThread = some m) (hnative : w.nativeMain = NativeMain.inReadyCallback) :
    ∃ w', waitForMain stateDone
      (w.modifyMain (fun m => { m with state := m.state.set stateShuttingDown }))
      (Event.mainThread :: Event.mainThread :: rest) = Res.ret () w' rest := by
  have hc0 : (fun v : World => decide (v.mainState = some stateDone))
      (w.modifyMain (fun m => { m with state := m.state.set stateShuttingDown })) = false := by
    simp [World.mainState, World.modifyMain, hm, threadState.set]
  have hc1 : (fun v : World => decide (v.mainState = some stateDone))
      (envStep Event.mainThread
        (w.modifyMain (fun m => { m with state := m.state.set stateShuttingDown }))) = false := by
    simp [envStep, nativeMainStep, World.mainState, World.modifyMain, hm, hnative,
      threadState.set]
  have hc2 : (fun v : World => decide (v.mainState = some stateDone))
      (envStep Event.mainThread (envStep Event.mainThread
        (w.modifyMain (fun m => { m with state := m.state.set stateShuttingDown })))) = true := by
    simp [envStep, nativeMainStep, World.mainState, World.modifyMain, hm, hnative,
      threadState.set, go_frankenphp_shutdown_main_thread]
  refine ⟨envStep Event.mainThread (envStep Event.mainThread
    (w.modifyMain (fun m => { m with state := m.state.set stateShuttingDown }))), ?_⟩
  unfold waitForMain
  simp only [modifyMain_mainThread, hm, Option.map_some']
  rw [await_step _ _ _ _ hc0, await_step _ _ _ _ hc1, await_of_cond _ _ _ hc2]

/-- The function `drainPHPThreads` returns on a started pool in which every
worker has a running native thread, a free lock, an open drain signal and is
not Done yet, when `mainThread.done` is open and the native main thread waits
inside the ready callback, provided the schedule lets the native thread of
each worker and then, twice, the native main thread take a step. -/
theorem drainPHPThreads_returns (P : Params) (w : World) (m : phpMainThread)
    (rest : List Event) (hm : w.mainThread = some m) (hdone : m.done = false)
    (hnative : w.nativeMain = NativeMain.inReadyCallback)
    (hpool : ∀ i, i < w.phpThreads.length → i ∈ w.nativeWorkers ∧
      ∃ t, w.phpThreads[i]? = some t ∧ t.handlerMu = none ∧ t.drainChan = false ∧
        t.state.currentState ≠ stateDone) :
    ∃ w', drainPHPThreads P w ((List.range w.phpThreads.length).map Event.worker ++
      Event.mainThread :: Event.mainThread :: rest) = Res.ret () w' rest := by
  have hflat0 : ∀ l : List Nat, (l.map (fun _ : Nat => ([] : List Event))).flatten = [] := by
    intro l; induction l <;> simp_all
  have hflat1 : ∀ l : List Nat, (l.map (fun i : Nat => [Event.worker i])).flatten
      = l.map Event.worker := by
    intro l; induction l <;> simp_all
  -- the first loop
  obtain ⟨w1, h1, ⟨hm1, hn1, hw1, hl1⟩, hR1, _⟩ := forEach_returns (shutdownThread P)
    (fun _ => []) (fun v => v.mainThread = w.mainThread ∧ v.nativeMain = w.nativeMain ∧
      v.nativeWorkers = w.nativeWorkers ∧ v.phpThreads.length = w.phpThreads.length)
    (fun i v => ∃ t, v.phpThreads[i]? = some t ∧ t.handlerMu = none ∧ t.drainChan = false ∧
      t.state.currentState ≠ stateDone)
    (fun i v => ∃ t, v.phpThreads[i]? = some t ∧
      t.handlerMu = some LockHolder.supervisor ∧ t.drainChan = true ∧
      t.state.currentState ≠ stateDone)
    (by
      intro i v s ⟨a1, a2, a3, a4⟩ ⟨t, ht, hfree, hopen, hnot⟩
      obtain ⟨v', hr, b1, b2, b3, b4, b5, b6⟩ := shutdownThread_returns P i v s t ht hfree hopen
      refine ⟨v', hr, ⟨b1.trans a1, b2.trans a2, b3.trans a3, b4.trans a4⟩,
        ⟨_, b5, rfl, rfl, request_not_done _ _ hnot⟩, ?_, ?_⟩
      · intro j hj hpre
        rw [b6 j hj]
        exact hpre
      · intro j hj hr'
        rw [b6 j hj]
        exact hr')
    (List.range w.phpThreads.length) [] w
    ((List.range w.phpThreads.length).map Event.worker ++
      Event.mainThread :: Event.mainThread :: rest)
    (List.nodup_range _) (by simp) ⟨rfl, rfl, rfl, rfl⟩
    (fun i hi => (hpool i (List.mem_range.mp hi)).2) (by simp)
  rw [hflat0, List.nil_append] at h1
  -- the close of the done channel
  have h2 : closeMainDone w1 ((List.range w.phpThreads.length).map Event.worker ++
      Event.mainThread :: Event.mainThread :: rest)
      = Res.ret () (w1.modifyMain (fun m => { m with done := true }))
        ((List.range w.phpThreads.length).map Event.worker ++
          Event.mainThread :: Event.mainThread :: rest) := by
    unfold closeMainDone
    rw [hm1, hm]
    simp [hdone]
  -- the second loop
  obtain ⟨w3, h3, ⟨hm3, hn3, _, _⟩, _, _⟩ := forEach_returns awaitThreadDone
    (fun i => [Event.worker i])
    (fun v => v.mainThread = some { m with done := true } ∧ v.nativeMain = w.nativeMain ∧
      v.nativeWorkers = w.nativeWorkers ∧ v.phpThreads.length = w.phpThreads.length)
    (fun i v => i < w.phpThreads.length ∧ ∃ t, v.phpThreads[i]? = some t ∧
      t.handlerMu = some LockHolder.supervisor ∧ t.drainChan = true ∧
      t.state.currentState ≠ stateDone)
    (fun _ _ => True)
    (by
      intro i v s ⟨a1, a2, a3, a4⟩ ⟨hi, t, ht, hheld, hclosed, hnot⟩
      obtain ⟨v', hr, b1, b2, b3, b4, _, b6⟩ := awaitThreadDone_returns i v s t ht hheld
        hclosed hnot (by rw [a3]; exact (hpool i hi).1)
      refine ⟨v', hr, ⟨b1.trans a1, b2.trans a2, b3.trans a3, b4.trans a4⟩, trivial, ?_,
        fun _ _ _ => trivial⟩
      intro j hj ⟨hjlt, hpre⟩
      refine ⟨hjlt, ?_⟩
      rw [b6 j hj]
      exact hpre)
    (List.range w.phpThreads.length) []
    (w1.modifyMain (fun m => { m with done := true }))
    (Event.mainThread :: Event.mainThread :: rest)
    (List.nodup_range _) (by simp)
    ⟨by rw [modifyMain_mainThread, hm1, hm]; rfl, hn1, hw1, hl1⟩
    (fun i hi => ⟨List.mem_range.mp hi, hR1 i hi⟩) (by simp)
  rw [hflat1] at h3
  -- the last wait
  obtain ⟨w5, h5⟩ := waitForMain_done_returns w3 _ rest hm3 (hn3.trans hnative)
  refine ⟨{ w5 with phpThreads := [] }, ?_⟩
  unfold drainPHPThreads drainBody drainLockPhase
  rw [h1]
  dsimp only
  rw [h2]
  dsimp only
  have hlen2 : (w1.modifyMain (fun m => { m with done := true })).phpThreads.length
      = w.phpThreads.length := hl1
  rw [hlen2, h3]
  dsimp only
  rw [h5]

/-- C4: when `drainPHPThreads` returns, the state of the main thread is Done
and `phpThreads` is nil; just before `phpThreads` is dropped the pool has the
size it had at the start, every worker keeps its position and index and is
Done; and the run went through a state in which every worker was Done and the
main thread ShuttingDown, from which the wait for Done of the main thread
returned. It does return on a started pool (free locks, open drain signals,
running native threads, the native main thread inside the ready callback)
when the native thread of each worker and then the native main thread are
scheduled. -/
theorem drainPHPThreads_done (P : Params) (w : World) (sched : List Event) :
    (∀ (w' : World) (rest : List Event), drainPHPThreads P w sched = Res.ret () w' rest →
      w'.mainState = some stateDone ∧ w'.phpThreads = [] ∧
      ∃ (w3 : World) (s3 : List Event) (w5 : World), drainBody P w sched = Res.ret () w5 rest ∧
        w' = { w5 with phpThreads := [] } ∧
        (∀ t ∈ w3.phpThreads, t.state.currentState = stateDone) ∧
        (w3.modifyMain (fun m => { m with state := m.state.set stateShuttingDown })).mainState
          = some stateShuttingDown ∧
        waitForMain stateDone
          (w3.modifyMain (fun m => { m with state := m.state.set stateShuttingDown })) s3
          = Res.ret () w5 rest ∧
        w5.mainState = some stateDone ∧
        w5.phpThreads.length = w.phpThreads.length ∧
        (∀ t ∈ w5.phpThreads, t.state.currentState = stateDone) ∧
        ∀ (i : Nat) (t : phpThread), w.phpThreads[i]? = some t →
          ∃ t', w5.phpThreads[i]? = some t' ∧ t'.threadIndex = t.threadIndex ∧
            t'.state.currentState = stateDone) ∧
    (∀ (m : phpMainThread) (rest : List Event), w.mainThread = some m → m.done = false →
      w.nativeMain = NativeMain.inReadyCallback →
      (∀ i, i < w.phpThreads.length → i ∈ w.nativeWorkers ∧
        ∃ t, w.phpThreads[i]? = some t ∧ t.handlerMu = none ∧ t.drainChan = false ∧
          t.state.currentState ≠ stateDone) →
      ∃ w', drainPHPThreads P w ((List.range w.phpThreads.length).map Event.worker ++
        Event.mainThread :: Event.mainThread :: rest) = Res.ret () w' rest) :=
  ⟨fun w' rest h => drainPHPThreads_ret_spec P w sched w' rest h,
   fun m rest hm hd hn hp => drainPHPThreads_returns P w m rest hm hd hn hp⟩

/-- C4 at a concrete run: a started pool of two Inactive workers; both native
worker threads and then the native main thread are scheduled, and
`drainPHPThreads` returns. -/
theorem drainPHPThreads_done_witness :
    drainPHPThreads exampleParams (runningWorld [inactiveThread 0, inactiveThread 1])
        [Event.worker 0, Event.worker 1, Event.mainThread, Event.mainThread]
      = Res.ret () (drainPHPThreads exampleParams
          (runningWorld [inactiveThread 0, inactiveThread 1])
          [Event.worker 0, Event.worker 1, Event.mainThread, Event.mainThread]).world [] ∧
    (drainPHPThreads exampleParams (runningWorld [inactiveThread 0, inactiveThread 1])
        [Event.worker 0, Event.worker 1, Event.mainThread, Event.mainThread]).world.mainState
      = some stateDone ∧
    (drainBody exampleParams (runningWorld [inactiveThread 0, inactiveThread 1])
        [Event.worker 0, Event.worker 1, Event.mainThread, Event.mainThread]).world.phpThreads
      = [{ threadIndex := 0, state := ⟨stateDone⟩, handlerMu := none, drainChan := true },
         { threadIndex := 1, state := ⟨stateDone⟩, handlerMu := none, drainChan := true }] :=
  ⟨rfl,
   ((drainPHPThreads_done exampleParams (runningWorld [inactiveThread 0, inactiveThread 1])
      [Event.worker 0, Event.worker 1, Event.mainThread, Event.mainThread]).1 _ [] rfl).1,
   rfl⟩

end frankenphp
